import Mathlib

/-!
# Verification of `brioche-runtime-utils`

A shallow embedding of the core of `brioche-runtime-utils` (the autopack
engine, the runtime stubs, the resource store and the runnable-template
evaluator) together with theorems settling the specification claims.

Modelling conventions:

* Rust byte strings (`Vec<u8>`, `OsString`, `BString`) are modelled as `String`.
* Rust `Path`/`PathBuf` is modelled as `RPath`: an absoluteness flag plus a
  list of components.  `parent` of a path with no components is `none`
  (matching `Path::parent` on `""` and `"/"`); `join` with an absolute path
  replaces the receiver, as in Rust.
* The filesystem is a record of boolean predicates on paths (`Fs`).
* Fallible Rust functions become `Except`-valued Lean functions; process
  environment lookups (`std::env::var_os`) become an explicit
  `String → Option String` argument.
* `blake3` hashing is modelled by the exact byte stream that the code feeds
  to the hasher (an idealized, collision-free hash).
-/

namespace Brioche

/-- Byte strings (`Vec<u8>` / `OsString` / `BString` in the Rust sources). -/
abbrev Str := String

/-- Decidable equality of `Except` results, used to evaluate the concrete
counterexamples and witnesses. -/
instance {ε α : Type} [DecidableEq ε] [DecidableEq α] : DecidableEq (Except ε α) :=
  fun x y =>
    match x, y with
    | .ok a, .ok b =>
      if h : a = b then .isTrue (by rw [h])
      else .isFalse (by intro hc; cases hc; exact h rfl)
    | .error a, .error b =>
      if h : a = b then .isTrue (by rw [h])
      else .isFalse (by intro hc; cases hc; exact h rfl)
    | .ok _, .error _ => .isFalse (by intro hc; cases hc)
    | .error _, .ok _ => .isFalse (by intro hc; cases hc)

/-- Model of a Rust `Path` / `PathBuf`: an absoluteness flag and the list of
normal components. -/
structure RPath where
  absolute : Bool
  components : List String
deriving DecidableEq, Repr

/-- `Path::parent`: `none` when there is no component (as for `""` and `"/"`),
otherwise the path with the last component dropped. -/
def RPath.parent (p : RPath) : Option RPath :=
  if p.components.isEmpty then none
  else some ⟨p.absolute, p.components.dropLast⟩

/-- `Path::join`: joining with an absolute path replaces the receiver. -/
def RPath.join (p q : RPath) : RPath :=
  if q.absolute then q else ⟨p.absolute, p.components ++ q.components⟩

/-- Render a path back to a byte string (used when a `PathBuf` is pushed onto
an `OsString`). -/
def RPath.render (p : RPath) : Str :=
  (if p.absolute then "/" else "") ++ String.intercalate "/" p.components

/-- Split a character list on a separator, keeping empty groups. -/
def splitComponents (sep : Char) : List Char → List (List Char)
  | [] => [[]]
  | c :: rest =>
    match splitComponents sep rest with
    | [] => [[]]
    | grp :: groups =>
      if c == sep then [] :: grp :: groups else (c :: grp) :: groups

/-- Parse a byte string into a path (`bstr`'s `to_path` on Unix, which never
fails): a leading slash marks an absolute path, the remaining non-empty
slash-separated pieces are the components. -/
def parsePath (s : Str) : RPath :=
  ⟨(match s.data with
    | c :: _ => c == '/'
    | [] => false),
   ((splitComponents '/' s.data).map (fun cs => String.mk cs)).filter
     (fun c => !c.isEmpty)⟩

/-- The filesystem state visible to the programs, as boolean predicates
(`Path::exists`, `Path::is_file`, `Path::is_dir`, and the `0o111` executable
permission test). -/
structure Fs where
  existsAt : RPath → Bool
  isFile : RPath → Bool
  isDir : RPath → Bool
  isExec : RPath → Bool

/-- `brioche_resources::find_in_resource_dirs` (src/crates/brioche-resources/
src/lib.rs): the first directory whose join with `subpath` exists. -/
def find_in_resource_dirs (fs : Fs) (resource_dirs : List RPath) (subpath : RPath) :
    Option RPath :=
  match resource_dirs with
  | [] => none
  | d :: rest =>
    if fs.existsAt (d.join subpath) then some (d.join subpath)
    else find_in_resource_dirs fs rest subpath

/-- Concatenation of a list of byte strings (an `OsString` built by repeated
`push`). -/
def concatStrs : List Str → Str
  | [] => ""
  | s :: rest => s ++ concatStrs rest

/-! ## runnable-core: templates and env values
(src/crates/runnable-core/src/lib.rs) -/

/-- `runnable_core::RunnableTemplateError`. -/
inductive RunnableTemplateError
  | utf8Error
  | pathError
  | invalidProgramPath
  | packResourceDirError
  | resourceNotFound (resource : Str)
  | prependAndAppend
deriving DecidableEq, Repr

/-- `runnable_core::TemplateComponent`. -/
inductive TemplateComponent
  | literal (value : Str)
  | relativePath (path : Str)
  | resource (resource : Str)
deriving DecidableEq, Repr

/-- `runnable_core::Template`. -/
structure Template where
  components : List TemplateComponent
deriving DecidableEq, Repr

/-- `TemplateComponent::is_empty`. -/
def TemplateComponent.is_empty : TemplateComponent → Bool
  | .literal value => value.isEmpty
  | .relativePath _ => false
  | .resource _ => false

/-- `Template::is_empty`. -/
def Template.is_empty (t : Template) : Bool :=
  t.components.all TemplateComponent.is_empty

/-- `Template::from_literal`. -/
def Template.from_literal (value : Str) : Template :=
  if value.isEmpty then ⟨[]⟩ else ⟨[.literal value]⟩

/-- `Template::from_resource_path` (the bytes-conversion failure cannot occur
in this byte-string model). -/
def Template.from_resource_path (resource_path : Str) : Template :=
  ⟨[.resource resource_path]⟩

/-- `Template::append_literal`: extend the final literal component, or push a
new one. -/
def Template.append_literal (t : Template) (literal : Str) : Template :=
  if literal.isEmpty then t
  else
    match t.components.getLast? with
    | some (.literal value) => ⟨t.components.dropLast ++ [.literal (value ++ literal)]⟩
    | _ => ⟨t.components ++ [.literal literal]⟩

/-- `Template::prepend`. -/
def Template.prependT (t prependArg : Template) (separator : Str) : Template :=
  ⟨((Template.mk prependArg.components).append_literal separator).components ++ t.components⟩

/-- `Template::append`. -/
def Template.appendT (t appendArg : Template) (separator : Str) : Template :=
  ⟨(t.append_literal separator).components ++ appendArg.components⟩

/-- `Template::fallback`. -/
def Template.fallbackT (t fallbackArg : Template) : Template :=
  if t.is_empty then fallbackArg else t

/-- The loop body of `Template::to_os_string`: walk the components, pushing
each evaluation onto the accumulated `OsString`. -/
def toOsStringLoop (fs : Fs) (program : RPath) (resource_dirs : List RPath) :
    List TemplateComponent → Str → Except RunnableTemplateError Str
  | [], acc => .ok acc
  | .literal value :: rest, acc =>
    toOsStringLoop fs program resource_dirs rest (acc ++ value)
  | .relativePath path :: rest, acc =>
    match program.parent with
    | none => .error .invalidProgramPath
    | some program_dir =>
      toOsStringLoop fs program resource_dirs rest
        (acc ++ (program_dir.join (parsePath path)).render)
  | .resource resource :: rest, acc =>
    match find_in_resource_dirs fs resource_dirs (parsePath resource) with
    | none => .error (.resourceNotFound resource)
    | some resource_path =>
      toOsStringLoop fs program resource_dirs rest (acc ++ resource_path.render)

/-- `Template::to_os_string` (src/crates/runnable-core/src/lib.rs). -/
def Template.to_os_string (t : Template) (fs : Fs) (program : RPath)
    (resource_dirs : List RPath) : Except RunnableTemplateError Str :=
  toOsStringLoop fs program resource_dirs t.components ""

/-- Specification-level evaluation of a single template component, as the
spec describes it: a literal contributes its bytes, a relative path the
program parent joined with its bytes, a resource the first resource-dir hit. -/
def templateComponentEval (fs : Fs) (program : RPath) (resource_dirs : List RPath) :
    TemplateComponent → Except RunnableTemplateError Str
  | .literal value => .ok value
  | .relativePath path =>
    match program.parent with
    | none => .error .invalidProgramPath
    | some program_dir => .ok (program_dir.join (parsePath path)).render
  | .resource resource =>
    match find_in_resource_dirs fs resource_dirs (parsePath resource) with
    | none => .error (.resourceNotFound resource)
    | some resource_path => .ok resource_path.render

/-- Evaluate every element of a list, failing on the first error (the shape of
a sequence of fallible evaluations). -/
def mapEval (f : α → Except ε β) : List α → Except ε (List β)
  | [] => .ok []
  | a :: l =>
    match f a with
    | .error e => .error e
    | .ok b =>
      match mapEval f l with
      | .error e => .error e
      | .ok bs => .ok (b :: bs)

theorem find_in_resource_dirs_eq_none_iff (fs : Fs) (dirs : List RPath) (subpath : RPath) :
    find_in_resource_dirs fs dirs subpath = none ↔
      ∀ d ∈ dirs, fs.existsAt (d.join subpath) = false := by
  induction dirs with
  | nil => simp [find_in_resource_dirs]
  | cons d rest ih =>
    cases hb : fs.existsAt (d.join subpath) <;>
      simp [find_in_resource_dirs, hb, ih]

theorem toOsStringLoop_eq_mapEval (fs : Fs) (program : RPath) (resource_dirs : List RPath) :
    ∀ (cs : List TemplateComponent) (acc : Str),
      toOsStringLoop fs program resource_dirs cs acc =
        (mapEval (templateComponentEval fs program resource_dirs) cs).map
          (fun vs => acc ++ concatStrs vs) := by
  intro cs
  induction cs with
  | nil => intro acc; simp [toOsStringLoop, mapEval, concatStrs, Except.map]
  | cons c rest ih =>
    intro acc
    cases c with
    | literal value =>
      simp only [toOsStringLoop, ih, mapEval, templateComponentEval]
      cases hrest : mapEval (templateComponentEval fs program resource_dirs) rest <;>
        simp [hrest, Except.map, concatStrs, String.append_assoc]
    | relativePath path =>
      cases hp : program.parent with
      | none => simp [toOsStringLoop, hp, mapEval, templateComponentEval, Except.map]
      | some program_dir =>
        simp only [toOsStringLoop, hp, ih, mapEval, templateComponentEval]
        cases hrest : mapEval (templateComponentEval fs program resource_dirs) rest <;>
          simp [hrest, Except.map, concatStrs, String.append_assoc]
    | resource resource =>
      cases hr : find_in_resource_dirs fs resource_dirs (parsePath resource) with
      | none => simp [toOsStringLoop, hr, mapEval, templateComponentEval, Except.map]
      | some resource_path =>
        simp only [toOsStringLoop, hr, ih, mapEval, templateComponentEval]
        cases hrest : mapEval (templateComponentEval fs program resource_dirs) rest <;>
          simp [hrest, Except.map, concatStrs, String.append_assoc]

/-- C4: `Template::to_os_string` concatenates the per-component evaluations in
order (literal bytes; parent of the stub path joined with the bytes; the first
resource dir containing the subpath), a `RelativePath` component fails with
`InvalidProgramPath` exactly when the stub path has no parent, and a
`Resource` component fails with `ResourceNotFound` carrying the subpath bytes
exactly when no resource directory contains the subpath. -/
theorem template_to_os_string_c4 (fs : Fs) (program : RPath)
    (resource_dirs : List RPath) (t : Template) :
    t.to_os_string fs program resource_dirs =
        (mapEval (templateComponentEval fs program resource_dirs) t.components).map concatStrs
    ∧ (∀ path : Str,
        templateComponentEval fs program resource_dirs (.relativePath path) =
            .error .invalidProgramPath ↔ program.parent = none)
    ∧ (∀ resource : Str,
        templateComponentEval fs program resource_dirs (.resource resource) =
            .error (.resourceNotFound resource) ↔
          ∀ d ∈ resource_dirs, fs.existsAt (d.join (parsePath resource)) = false) := by
  refine ⟨?_, ?_, ?_⟩
  · rw [Template.to_os_string, toOsStringLoop_eq_mapEval]
    cases mapEval (templateComponentEval fs program resource_dirs) t.components <;>
      simp [Except.map]
  · intro path
    cases hp : program.parent <;> simp [templateComponentEval, hp]
  · intro resource
    rw [← find_in_resource_dirs_eq_none_iff]
    cases hr : find_in_resource_dirs fs resource_dirs (parsePath resource) <;>
      simp [templateComponentEval, hr]

/-- `runnable_core::EnvValue`. -/
inductive EnvValue
  | clear
  | inherit
  | set (value : Template)
  | fallback (value : Template)
  | prepend (value : Template) (separator : Str)
  | append (value : Template) (separator : Str)
deriving DecidableEq, Repr

/-- `EnvValue::prepend` (named `prependValue` because the `prepend`
constructor occupies the source name). -/
def EnvValue.prependValue : EnvValue → Template → Str → Except RunnableTemplateError EnvValue
  | .clear, prepend_value, _ => .ok (.set prepend_value)
  | .inherit, prepend_value, separator => .ok (.prepend prepend_value separator)
  | .set value, prepend_value, separator =>
    .ok (.set (value.prependT prepend_value separator))
  | .fallback value, prepend_value, separator =>
    .ok (.prepend (value.prependT prepend_value separator) separator)
  | .prepend value sep0, prepend_value, separator =>
    .ok (.prepend (value.prependT prepend_value separator) sep0)
  | .append _ _, _, _ => .error .prependAndAppend

/-- `EnvValue::append` (named `appendValue` because the `append` constructor
occupies the source name). -/
def EnvValue.appendValue : EnvValue → Template → Str → Except RunnableTemplateError EnvValue
  | .clear, append_value, _ => .ok (.set append_value)
  | .inherit, append_value, separator => .ok (.append append_value separator)
  | .set value, append_value, separator =>
    .ok (.set (value.appendT append_value separator))
  | .fallback value, append_value, separator =>
    .ok (.append (value.appendT append_value separator) separator)
  | .prepend _ _, _, _ => .error .prependAndAppend
  | .append value sep0, append_value, separator =>
    .ok (.append (value.appendT append_value separator) sep0)

/-- C10: `EnvValue::prepend` fails with `PrependAndAppend` exactly on an
`Append` current value, `EnvValue::append` fails with `PrependAndAppend`
exactly on a `Prepend` current value, and both succeed on every other current
variant. -/
theorem env_value_prepend_append_c10 (v : EnvValue) (t : Template) (sep : Str) :
    (match v with
      | .append _ _ => v.prependValue t sep = .error .prependAndAppend
      | _ => ∃ v2, v.prependValue t sep = .ok v2)
    ∧ (match v with
      | .prepend _ _ => v.appendValue t sep = .error .prependAndAppend
      | _ => ∃ v2, v.appendValue t sep = .ok v2) := by
  cases v <;> simp [EnvValue.prependValue, EnvValue.appendValue]

/-! ## The autopack classifier (src/crates/brioche-autopack/src/lib.rs,
`autopack_kind`) -/

/-- `AutopackKind` from the autopack crate. -/
inductive AutopackKind
  | dynamicBinary
  | sharedLibrary
  | script
  | repack
deriving DecidableEq, Repr

/-- Result of `goblin::Object::parse`: an ELF object (with its optional
`PT_INTERP` interpreter and its `is_lib` flag), some other recognized object
kind, or a parse error.  `goblin` is an external crate, so parsing is kept
abstract. -/
inductive ObjectParse
  | elf (interpreter : Option Str) (is_lib : Bool)
  | otherObject
  | parseError
deriving DecidableEq, Repr

/-- `autopack_kind`: classify a file's contents.  `extractOk` abstracts
whether `brioche_pack::extract_pack` succeeds on the contents, and
`parseObject` abstracts `goblin::Object::parse`. -/
def autopack_kind (extractOk : Str → Bool) (parseObject : Str → ObjectParse)
    (contents : Str) : Option AutopackKind :=
  if extractOk contents then some .repack
  else if contents.startsWith "#!" then some .script
  else
    match parseObject contents with
    | .elf interpreter is_lib =>
      if interpreter.isSome then some .dynamicBinary
      else if is_lib then some .sharedLibrary
      else none
    | .otherObject => none
    | .parseError => none

/-- C3: the classifier returns `Repack` when pack extraction succeeds;
otherwise `Script` when the contents start with `#!`; otherwise, for an ELF
object, `DynamicBinary` when a `PT_INTERP` interpreter is present and
`SharedLibrary` when the object is flagged as a library without an
interpreter; and `None` in every remaining case — in exactly this precedence
order. -/
theorem autopack_kind_precedence_c3 (extractOk : Str → Bool)
    (parseObject : Str → ObjectParse) (contents : Str) :
    (extractOk contents = true →
        autopack_kind extractOk parseObject contents = some .repack)
    ∧ (extractOk contents = false → contents.startsWith "#!" = true →
        autopack_kind extractOk parseObject contents = some .script)
    ∧ (extractOk contents = false → contents.startsWith "#!" = false →
        ∀ interp is_lib, parseObject contents = .elf (some interp) is_lib →
          autopack_kind extractOk parseObject contents = some .dynamicBinary)
    ∧ (extractOk contents = false → contents.startsWith "#!" = false →
        parseObject contents = .elf none true →
          autopack_kind extractOk parseObject contents = some .sharedLibrary)
    ∧ (extractOk contents = false → contents.startsWith "#!" = false →
        (parseObject contents = .elf none false ∨
            parseObject contents = .otherObject ∨
            parseObject contents = .parseError) →
          autopack_kind extractOk parseObject contents = none) := by
  refine ⟨?_, ?_, ?_, ?_, ?_⟩
  · intro h; simp [autopack_kind, h]
  · intro h hs; simp [autopack_kind, h, hs]
  · intro h hs interp is_lib hp; simp [autopack_kind, h, hs, hp]
  · intro h hs hp; simp [autopack_kind, h, hs, hp]
  · intro h hs hp
    rcases hp with hp | hp | hp <;> simp [autopack_kind, h, hs, hp]

/-- Witness for C3 at a concrete input: a file whose pack extraction succeeds
classifies as `Repack`. -/
theorem autopack_kind_precedence_c3_witness :
    autopack_kind (fun _ => true) (fun _ => .parseError) "ELF" = some .repack :=
  (autopack_kind_precedence_c3 (fun _ => true) (fun _ => .parseError) "ELF").1 rfl

/-! ## The metadata runtime environment staging
(src/crates/brioche-packed-plain-exec/src/main.rs) -/

/-- `PackedError` from the plain runtime stub.  Error variants whose payload
is a foreign error (`IoError`, `SerdeJsonError`, `ExtractPackError`,
`PackResourceDirError`) are modelled without payloads. -/
inductive PackedError
  | ioError
  | serdeJsonError
  | extractPackError
  | packResourceDirError
  | runnableTemplateError (e : RunnableTemplateError)
  | repeatedArgs
  | resourceNotFound (resource : Str)
  | invalidUtf8 (bytes : Str)
  | invalidPathBytes (path : Str)
  | invalidPath (path : Str)
  | invalidPathOsString (path : Str)
  | invalidDependencyEnvVar (dependency : Str) (env_var : String)
deriving DecidableEq, Repr

/-- Evaluate a template and convert its error as the `?` operator does with
`#[from] RunnableTemplateError`. -/
def evalT (fs : Fs) (program : RPath) (resource_dirs : List RPath) (t : Template) :
    Except PackedError Str :=
  match t.to_os_string fs program resource_dirs with
  | .ok s => .ok s
  | .error e => .error (.runnableTemplateError e)

/-- `EnvVarChanges`: the staged environment accumulator.  The `HashMap` of the
source is modelled as a function from variable names to `none` (key absent)
or `some v` (key present with change `v`, itself `none` for removal). -/
structure EnvVarChanges where
  clear_envs : Bool
  envs : String → Option (Option Str)

/-- `EnvVarChanges::new`. -/
def EnvVarChanges.new (clear_envs : Bool) : EnvVarChanges :=
  ⟨clear_envs, fun _ => none⟩

/-- Insert (or overwrite) a single key of the accumulator map. -/
def EnvVarChanges.update (st : EnvVarChanges) (env_var : String) (value : Option Str) :
    EnvVarChanges :=
  ⟨st.clear_envs, fun v => if v = env_var then some value else st.envs v⟩

/-- `EnvVarChanges::get_mut`: read the current change for a variable,
materializing the lazily-inherited default (`None` under `clear_envs`,
otherwise `std::env::var_os`) when the key is absent. -/
def EnvVarChanges.get_mut (st : EnvVarChanges) (parentEnv : String → Option Str)
    (env_var : String) : Option Str × EnvVarChanges :=
  match st.envs env_var with
  | some x => (x, st)
  | none =>
    let d := if st.clear_envs then none else parentEnv env_var
    (d, st.update env_var d)

/-- `EnvVarChanges::inherit`. -/
def EnvVarChanges.inherit (st : EnvVarChanges) (parentEnv : String → Option Str)
    (env_var : String) : EnvVarChanges :=
  st.update env_var (parentEnv env_var)

/-- `EnvVarChanges::set`. -/
def EnvVarChanges.set (st : EnvVarChanges) (env_var : String) (value : Str) :
    EnvVarChanges :=
  st.update env_var (some value)

/-- `EnvVarChanges::clear`. -/
def EnvVarChanges.clear (st : EnvVarChanges) (env_var : String) : EnvVarChanges :=
  st.update env_var none

/-- `EnvVarChanges::prepend`. -/
def EnvVarChanges.prepend (st : EnvVarChanges) (parentEnv : String → Option Str)
    (env_var : String) (value separator : Str) : EnvVarChanges :=
  match st.get_mut parentEnv env_var with
  | (some current_value, st) => st.update env_var (some (value ++ separator ++ current_value))
  | (none, st) => st.update env_var (some value)

/-- `EnvVarChanges::append`. -/
def EnvVarChanges.append (st : EnvVarChanges) (parentEnv : String → Option Str)
    (env_var : String) (value separator : Str) : EnvVarChanges :=
  match st.get_mut parentEnv env_var with
  | (some current_value, st) => st.update env_var (some (current_value ++ separator ++ value))
  | (none, st) => st.update env_var (some value)

/-- `EnvVarChanges::apply_to_command`: the child environment that results from
optionally clearing the base environment and then applying every accumulated
change (`env` / `env_remove`). -/
def EnvVarChanges.apply_to_command (st : EnvVarChanges)
    (parentEnv : String → Option Str) : String → Option Str :=
  fun v =>
    match st.envs v with
    | some x => x
    | none => if st.clear_envs then none else parentEnv v

/-- `RunnablePath`.  Modelled from the spec: `RunnablePath` belongs to
`runnable-core`, whose copy under `src/` predates this type; the spec
describes it as a relative-to-stub or resource reference (§3), matching its
uses in `src/crates/brioche-autopack/src/lib.rs`. -/
inductive RunnablePath
  | relativePath (path : Str)
  | resource (resource : Str)
deriving DecidableEq, Repr

/-- `RunnablePath::to_path`.  Modelled from the spec: a relative path resolves
against the running stub's parent directory, a resource against the
resource-dir search list (first hit), mirroring the template components. -/
def RunnablePath.to_path (p : RunnablePath) (fs : Fs) (program : RPath)
    (resource_dirs : List RPath) : Except RunnableTemplateError RPath :=
  match p with
  | .relativePath path =>
    match program.parent with
    | none => .error .invalidProgramPath
    | some program_dir => .ok (program_dir.join (parsePath path))
  | .resource r =>
    match find_in_resource_dirs fs resource_dirs (parsePath r) with
    | none => .error (.resourceNotFound r)
    | some resource_path => .ok resource_path

/-- One entry of a dependency's `brioche-env.d/env` directory, as read by the
metadata runtime: a directory of (name, is-symlink, canonicalized-target)
sub-entries, a regular file with contents, or a symlink with a canonicalized
target. -/
inductive DepEnvEntryKind
  | dirEntries (entries : List (String × Bool × Str))
  | fileEntry (contents : Str)
  | symlinkEntry (target : Str)
deriving DecidableEq, Repr

/-- Stable insertion of an element into a list sorted by a string key. -/
def insertSortedBy (key : α → String) (e : α) : List α → List α
  | [] => [e]
  | f :: rest => if key e ≤ key f then e :: f :: rest else f :: insertSortedBy key e rest

/-- Stable sort by a string key (`sort_by_key` over `DirEntry::file_name`). -/
def sortByKeyStr (key : α → String) : List α → List α
  | [] => []
  | e :: rest => insertSortedBy key e (sortByKeyStr key rest)

/-- Run a fallible step over a list from an initial state (the shape of the
`for` loops of the metadata runtime). -/
def foldEval (f : σ → α → Except ε σ) : σ → List α → Except ε σ
  | st, [] => .ok st
  | st, a :: l =>
    match f st a with
    | .error e => .error e
    | .ok st2 => foldEval f st2 l

/-- Phase A of the env staging (the first `for` loop over `runnable.env`):
seed the accumulator for each named variable. -/
def phaseAStep (fs : Fs) (program : RPath) (resource_dirs : List RPath)
    (parentEnv : String → Option Str) (st : EnvVarChanges) :
    String × EnvValue → Except PackedError EnvVarChanges
  | (_, .set _) => .ok st
  | (env_var, .clear) => .ok (st.clear env_var)
  | (env_var, .fallback value) =>
    let st1 := st.inherit parentEnv env_var
    match st1.get_mut parentEnv env_var with
    | (cur, st2) =>
      if cur.isNone then
        match evalT fs program resource_dirs value with
        | .error e => .error e
        | .ok v => .ok (st2.update env_var (some v))
      else .ok st2
  | (env_var, .inherit) => .ok (st.inherit parentEnv env_var)
  | (env_var, .prepend _ _) => .ok (st.inherit parentEnv env_var)
  | (env_var, .append _ _) => .ok (st.inherit parentEnv env_var)

/-- Phase A over the whole `runnable.env` list. -/
def phaseA (fs : Fs) (program : RPath) (resource_dirs : List RPath)
    (parentEnv : String → Option Str) (env : List (String × EnvValue))
    (st : EnvVarChanges) : Except PackedError EnvVarChanges :=
  foldEval (phaseAStep fs program resource_dirs parentEnv) st env

/-- Phase B, inner step: apply one entry of a dependency's
`brioche-env.d/env` directory.  Directory entries are sorted by file name and
their canonicalized symlink targets are colon-joined and appended; file and
symlink entries act as fallbacks via `get_mut`. -/
def depEnvEntryStep (parentEnv : String → Option Str) (dependency_path : RPath)
    (st : EnvVarChanges) : String × DepEnvEntryKind → Except PackedError EnvVarChanges
  | (env_var, .dirEntries entries) =>
    let sorted := sortByKeyStr (fun e => e.1) entries
    if sorted.all (fun e => e.2.1) then
      .ok (st.append parentEnv env_var
        (String.intercalate ":" (sorted.map (fun e => e.2.2))) ":")
    else .error (.invalidDependencyEnvVar dependency_path.render env_var)
  | (env_var, .fileEntry contents) =>
    match st.get_mut parentEnv env_var with
    | (cur, st2) =>
      if cur.isNone then .ok (st2.update env_var (some contents)) else .ok st2
  | (env_var, .symlinkEntry target) =>
    match st.get_mut parentEnv env_var with
    | (cur, st2) =>
      if cur.isNone then .ok (st2.update env_var (some target)) else .ok st2

/-- Phase B, outer step: resolve one dependency and fold its
`brioche-env.d/env` entries.  `depEnv` abstracts `read_dir` on that tree
(`none`/missing directories read as the empty list, as the source flattens
`read_dir` errors away). -/
def phaseBStep (fs : Fs) (program : RPath) (resource_dirs : List RPath)
    (parentEnv : String → Option Str)
    (depEnv : RPath → List (String × DepEnvEntryKind)) (st : EnvVarChanges)
    (dependency : RunnablePath) : Except PackedError EnvVarChanges :=
  match dependency.to_path fs program resource_dirs with
  | .error e => .error (.runnableTemplateError e)
  | .ok dependency_path =>
    foldEval (depEnvEntryStep parentEnv dependency_path) st (depEnv dependency_path)

/-- Phase B over all of `runnable.dependencies`. -/
def phaseB (fs : Fs) (program : RPath) (resource_dirs : List RPath)
    (parentEnv : String → Option Str)
    (depEnv : RPath → List (String × DepEnvEntryKind))
    (dependencies : List RunnablePath) (st : EnvVarChanges) :
    Except PackedError EnvVarChanges :=
  foldEval (phaseBStep fs program resource_dirs parentEnv depEnv) st dependencies

/-- Phase C of the env staging (the second `for` loop over `runnable.env`):
apply the explicit `Set`, `Prepend` and `Append` values;
`Clear`/`Inherit`/`Fallback` were already applied. -/
def phaseCStep (fs : Fs) (program : RPath) (resource_dirs : List RPath)
    (parentEnv : String → Option Str) (st : EnvVarChanges) :
    String × EnvValue → Except PackedError EnvVarChanges
  | (_, .clear) => .ok st
  | (_, .inherit) => .ok st
  | (_, .fallback _) => .ok st
  | (env_name, .set value) =>
    match evalT fs program resource_dirs value with
    | .error e => .error e
    | .ok v => .ok (st.set env_name v)
  | (env_name, .prepend value separator) =>
    match evalT fs program resource_dirs value with
    | .error e => .error e
    | .ok v => .ok (st.prepend parentEnv env_name v separator)
  | (env_name, .append value separator) =>
    match evalT fs program resource_dirs value with
    | .error e => .error e
    | .ok v => .ok (st.append parentEnv env_name v separator)

/-- Phase C over the whole `runnable.env` list. -/
def phaseC (fs : Fs) (program : RPath) (resource_dirs : List RPath)
    (parentEnv : String → Option Str) (env : List (String × EnvValue))
    (st : EnvVarChanges) : Except PackedError EnvVarChanges :=
  foldEval (phaseCStep fs program resource_dirs parentEnv) st env

/-- `runnable_core::ArgValue`. -/
inductive ArgValue
  | arg (value : Template)
  | rest
deriving DecidableEq, Repr

/-- `runnable_core::Runnable`.  The `dependencies` field is part of the real
crate (spec §3) and is used by the metadata runtime under `src/`; the copy of
`runnable-core/src/lib.rs` under `src/` predates it. -/
structure Runnable where
  command : Template
  args : List ArgValue
  env : List (String × EnvValue)
  dependencies : List RunnablePath
  clear_env : Bool

/-- The environment-staging part of the metadata runtime (`run` in
src/crates/brioche-packed-plain-exec/src/main.rs, lines 174-333): phase A
seeds, phase B folds dependency contributions, phase C applies explicit
values, and the accumulated changes are applied to the child command. -/
def metadataRunEnvs (fs : Fs) (program : RPath) (resource_dirs : List RPath)
    (parentEnv : String → Option Str)
    (depEnv : RPath → List (String × DepEnvEntryKind)) (runnable : Runnable) :
    Except PackedError (String → Option Str) :=
  match phaseA fs program resource_dirs parentEnv runnable.env
      (EnvVarChanges.new runnable.clear_env) with
  | .error e => .error e
  | .ok st =>
    match phaseB fs program resource_dirs parentEnv depEnv runnable.dependencies st with
    | .error e => .error e
    | .ok st =>
      match phaseC fs program resource_dirs parentEnv runnable.env st with
      | .error e => .error e
      | .ok st => .ok (st.apply_to_command parentEnv)

/-- Specification-level seed of phase A for a single env entry, as the claim
words it: `Set` seeds nothing, `Clear` seeds absent, `Fallback` places the
evaluated value when the inherited value is missing, everything else inherits
the current environment value. -/
def seedSpec (fs : Fs) (program : RPath) (resource_dirs : List RPath)
    (parentEnv : String → Option Str) (env_var : String) :
    EnvValue → Option (Option Str)
  | .set _ => none
  | .clear => some none
  | .fallback value =>
    some (match parentEnv env_var with
      | none => (evalT fs program resource_dirs value).toOption
      | some s => some s)
  | .inherit => some (parentEnv env_var)
  | .prepend _ _ => some (parentEnv env_var)
  | .append _ _ => some (parentEnv env_var)

/-- Specification-level application of the accumulated changes over a base
environment. -/
def applyChangesSpec (base : String → Option Str) (st : EnvVarChanges) :
    String → Option Str :=
  fun v =>
    match st.envs v with
    | some x => x
    | none => base v

theorem EnvVarChanges.update_envs (st : EnvVarChanges) (v : String) (x : Option Str)
    (w : String) : (st.update v x).envs w = if w = v then some x else st.envs w := rfl

theorem EnvVarChanges.get_mut_envs_ne (st : EnvVarChanges) (p : String → Option Str)
    (v w : String) (h : w ≠ v) : ((st.get_mut p v).2).envs w = st.envs w := by
  cases hv : st.envs v <;> simp [EnvVarChanges.get_mut, hv, EnvVarChanges.update_envs, h]

theorem EnvVarChanges.inherit_envs_ne (st : EnvVarChanges) (p : String → Option Str)
    (v w : String) (h : w ≠ v) : (st.inherit p v).envs w = st.envs w := by
  simp [EnvVarChanges.inherit, EnvVarChanges.update_envs, h]

theorem EnvVarChanges.set_envs_ne (st : EnvVarChanges) (v : String) (x : Str)
    (w : String) (h : w ≠ v) : (st.set v x).envs w = st.envs w := by
  simp [EnvVarChanges.set, EnvVarChanges.update_envs, h]

theorem EnvVarChanges.clear_envs_ne (st : EnvVarChanges) (v w : String) (h : w ≠ v) :
    (st.clear v).envs w = st.envs w := by
  simp [EnvVarChanges.clear, EnvVarChanges.update_envs, h]

theorem EnvVarChanges.prepend_envs_ne (st : EnvVarChanges) (p : String → Option Str)
    (v : String) (val sep : Str) (w : String) (h : w ≠ v) :
    (st.prepend p v val sep).envs w = st.envs w := by
  rcases hgm : st.get_mut p v with ⟨cur, st2⟩
  have hg : st2.envs w = st.envs w := by
    have h0 := EnvVarChanges.get_mut_envs_ne st p v w h
    rw [hgm] at h0
    exact h0
  cases cur <;> simp [EnvVarChanges.prepend, hgm, EnvVarChanges.update_envs, h, hg]

theorem EnvVarChanges.append_envs_ne (st : EnvVarChanges) (p : String → Option Str)
    (v : String) (val sep : Str) (w : String) (h : w ≠ v) :
    (st.append p v val sep).envs w = st.envs w := by
  rcases hgm : st.get_mut p v with ⟨cur, st2⟩
  have hg : st2.envs w = st.envs w := by
    have h0 := EnvVarChanges.get_mut_envs_ne st p v w h
    rw [hgm] at h0
    exact h0
  cases cur <;> simp [EnvVarChanges.append, hgm, EnvVarChanges.update_envs, h, hg]

theorem phaseAStep_envs_ne (fs : Fs) (program : RPath) (resource_dirs : List RPath)
    (parentEnv : String → Option Str) (st : EnvVarChanges) (k : String) (ev : EnvValue)
    (st2 : EnvVarChanges) (w : String)
    (h : phaseAStep fs program resource_dirs parentEnv st (k, ev) = .ok st2)
    (hw : w ≠ k) : st2.envs w = st.envs w := by
  cases ev with
  | set value =>
    simp only [phaseAStep, Except.ok.injEq] at h
    rw [← h]
  | clear =>
    simp only [phaseAStep, Except.ok.injEq] at h
    rw [← h]; exact EnvVarChanges.clear_envs_ne st k w hw
  | inherit =>
    simp only [phaseAStep, Except.ok.injEq] at h
    rw [← h]; exact EnvVarChanges.inherit_envs_ne st parentEnv k w hw
  | prepend value sep =>
    simp only [phaseAStep, Except.ok.injEq] at h
    rw [← h]; exact EnvVarChanges.inherit_envs_ne st parentEnv k w hw
  | append value sep =>
    simp only [phaseAStep, Except.ok.injEq] at h
    rw [← h]; exact EnvVarChanges.inherit_envs_ne st parentEnv k w hw
  | fallback value =>
    rcases hgm : (st.inherit parentEnv k).get_mut parentEnv k with ⟨cur, stg⟩
    have hg : stg.envs w = (st.inherit parentEnv k).envs w := by
      have h0 := EnvVarChanges.get_mut_envs_ne (st.inherit parentEnv k) parentEnv k w hw
      rw [hgm] at h0
      exact h0
    have hstw : stg.envs w = st.envs w := by
      rw [hg]
      exact EnvVarChanges.inherit_envs_ne st parentEnv k w hw
    simp only [phaseAStep, hgm] at h
    cases cur with
    | none =>
      simp only [Option.isNone_none, if_true] at h
      cases he : evalT fs program resource_dirs value with
      | error e0 => rw [he] at h; cases h
      | ok v =>
        rw [he] at h
        simp only [Except.ok.injEq] at h
        rw [← h, EnvVarChanges.update_envs]
        simp [hw, hstw]
    | some c =>
      simp only [Option.isNone_some, Bool.false_eq_true, if_false, Except.ok.injEq] at h
      rw [← h]
      exact hstw

theorem phaseAStep_envs_self (fs : Fs) (program : RPath) (resource_dirs : List RPath)
    (parentEnv : String → Option Str) (st : EnvVarChanges) (k : String) (ev : EnvValue)
    (st2 : EnvVarChanges) (h0 : st.envs k = none)
    (h : phaseAStep fs program resource_dirs parentEnv st (k, ev) = .ok st2) :
    st2.envs k = seedSpec fs program resource_dirs parentEnv k ev := by
  cases ev with
  | set value =>
    simp only [phaseAStep, Except.ok.injEq] at h
    rw [← h, seedSpec, h0]
  | clear =>
    simp only [phaseAStep, Except.ok.injEq] at h
    rw [← h]
    simp [EnvVarChanges.clear, EnvVarChanges.update_envs, seedSpec]
  | inherit =>
    simp only [phaseAStep, Except.ok.injEq] at h
    rw [← h]
    simp [EnvVarChanges.inherit, EnvVarChanges.update_envs, seedSpec]
  | prepend value sep =>
    simp only [phaseAStep, Except.ok.injEq] at h
    rw [← h]
    simp [EnvVarChanges.inherit, EnvVarChanges.update_envs, seedSpec]
  | append value sep =>
    simp only [phaseAStep, Except.ok.injEq] at h
    rw [← h]
    simp [EnvVarChanges.inherit, EnvVarChanges.update_envs, seedSpec]
  | fallback value =>
    have hinh : (st.inherit parentEnv k).envs k = some (parentEnv k) := by
      simp [EnvVarChanges.inherit, EnvVarChanges.update_envs]
    have hgm : (st.inherit parentEnv k).get_mut parentEnv k =
        (parentEnv k, st.inherit parentEnv k) := by
      simp [EnvVarChanges.get_mut, hinh]
    simp only [phaseAStep, hgm] at h
    cases hp : parentEnv k with
    | none =>
      rw [hp] at h
      simp only [Option.isNone_none, if_true] at h
      cases he : evalT fs program resource_dirs value with
      | error e0 => rw [he] at h; cases h
      | ok v =>
        rw [he] at h
        simp only [Except.ok.injEq] at h
        rw [← h]
        simp [EnvVarChanges.update_envs, seedSpec, hp, he, Except.toOption]
    | some s =>
      rw [hp] at h
      simp only [Option.isNone_some, Bool.false_eq_true, if_false, Except.ok.injEq] at h
      rw [← h, hinh]
      simp [seedSpec, hp]

theorem nodup_keys_eq {α β : Type} {l : List (α × β)} (h : (l.map Prod.fst).Nodup)
    {k : α} {a b : β} (ha : (k, a) ∈ l) (hb : (k, b) ∈ l) : a = b := by
  induction l with
  | nil => cases ha
  | cons e rest ih =>
    rw [List.map_cons, List.nodup_cons] at h
    rcases List.mem_cons.mp ha with ha1 | ha1 <;> rcases List.mem_cons.mp hb with hb1 | hb1
    · exact congrArg Prod.snd (ha1.trans hb1.symm)
    · exact absurd (List.mem_map.mpr ⟨(k, b), hb1, by rw [← ha1]⟩) h.1
    · exact absurd (List.mem_map.mpr ⟨(k, a), ha1, by rw [← hb1]⟩) h.1
    · exact ih h.2 ha1 hb1

theorem phaseA_sound (fs : Fs) (program : RPath) (resource_dirs : List RPath)
    (parentEnv : String → Option Str) :
    ∀ (env : List (String × EnvValue)) (st : EnvVarChanges),
      (env.map Prod.fst).Nodup →
      (∀ p ∈ env, st.envs p.1 = none) →
      ∀ st2, phaseA fs program resource_dirs parentEnv env st = .ok st2 →
        (∀ p ∈ env, st2.envs p.1 = seedSpec fs program resource_dirs parentEnv p.1 p.2) ∧
        (∀ w, (∀ p ∈ env, p.1 ≠ w) → st2.envs w = st.envs w) := by
  intro env
  induction env with
  | nil =>
    intro st _ _ st2 h
    simp only [phaseA, foldEval, Except.ok.injEq] at h
    subst h
    exact ⟨by simp, fun w _ => rfl⟩
  | cons e rest ih =>
    intro st hnodup hnone st2 h
    obtain ⟨k, ev⟩ := e
    rw [List.map_cons, List.nodup_cons] at hnodup
    simp only [phaseA, foldEval] at h
    cases hstep : phaseAStep fs program resource_dirs parentEnv st (k, ev) with
    | error e0 => rw [hstep] at h; cases h
    | ok st1 =>
      rw [hstep] at h
      have hrest_none : ∀ p ∈ rest, st1.envs p.1 = none := by
        intro p hp
        have hne : p.1 ≠ k := by
          intro hpk
          exact hnodup.1 (List.mem_map.mpr ⟨p, hp, hpk⟩)
        rw [phaseAStep_envs_ne fs program resource_dirs parentEnv st k ev st1 p.1 hstep hne]
        exact hnone p (List.mem_cons_of_mem _ hp)
      have hih := ih st1 hnodup.2 hrest_none st2 h
      constructor
      · intro p hp
        rcases List.mem_cons.mp hp with hp1 | hp1
        · subst hp1
          have hkeep : st2.envs k = st1.envs k := by
            refine hih.2 k ?_
            intro q hq hqk
            exact hnodup.1 (List.mem_map.mpr ⟨q, hq, hqk⟩)
          rw [hkeep]
          exact phaseAStep_envs_self fs program resource_dirs parentEnv st k ev st1
            (hnone (k, ev) (List.mem_cons_self _ _)) hstep
        · exact hih.1 p hp1
      · intro w hw
        have h1 : st2.envs w = st1.envs w :=
          hih.2 w (fun q hq => hw q (List.mem_cons_of_mem _ hq))
        rw [h1]
        exact phaseAStep_envs_ne fs program resource_dirs parentEnv st k ev st1 w hstep
          (fun hwk => hw (k, ev) (List.mem_cons_self _ _) hwk.symm)

/-- An env directive that is a no-op in phase C. -/
def noopC (ev : EnvValue) : Prop :=
  ev = .clear ∨ ev = .inherit ∨ ∃ v0, ev = .fallback v0

theorem phaseCStep_preserve (fs : Fs) (program : RPath) (resource_dirs : List RPath)
    (parentEnv : String → Option Str) (st : EnvVarChanges) (k : String) (ev : EnvValue)
    (st2 : EnvVarChanges) (w : String)
    (h : phaseCStep fs program resource_dirs parentEnv st (k, ev) = .ok st2)
    (hcase : k ≠ w ∨ noopC ev) : st2.envs w = st.envs w := by
  cases ev with
  | clear => simp only [phaseCStep, Except.ok.injEq] at h; rw [← h]
  | inherit => simp only [phaseCStep, Except.ok.injEq] at h; rw [← h]
  | fallback value => simp only [phaseCStep, Except.ok.injEq] at h; rw [← h]
  | set value =>
    have hk : k ≠ w := by
      rcases hcase with hk | hn
      · exact hk
      · rcases hn with hn | hn | ⟨v0, hn⟩ <;> cases hn
    simp only [phaseCStep] at h
    cases he : evalT fs program resource_dirs value with
    | error e0 => rw [he] at h; cases h
    | ok v =>
      rw [he] at h
      simp only [Except.ok.injEq] at h
      rw [← h]
      exact EnvVarChanges.set_envs_ne st k v w (fun hwk => hk hwk.symm)
  | prepend value sep =>
    have hk : k ≠ w := by
      rcases hcase with hk | hn
      · exact hk
      · rcases hn with hn | hn | ⟨v0, hn⟩ <;> cases hn
    simp only [phaseCStep] at h
    cases he : evalT fs program resource_dirs value with
    | error e0 => rw [he] at h; cases h
    | ok v =>
      rw [he] at h
      simp only [Except.ok.injEq] at h
      rw [← h]
      exact EnvVarChanges.prepend_envs_ne st parentEnv k v sep w (fun hwk => hk hwk.symm)
  | append value sep =>
    have hk : k ≠ w := by
      rcases hcase with hk | hn
      · exact hk
      · rcases hn with hn | hn | ⟨v0, hn⟩ <;> cases hn
    simp only [phaseCStep] at h
    cases he : evalT fs program resource_dirs value with
    | error e0 => rw [he] at h; cases h
    | ok v =>
      rw [he] at h
      simp only [Except.ok.injEq] at h
      rw [← h]
      exact EnvVarChanges.append_envs_ne st parentEnv k v sep w (fun hwk => hk hwk.symm)

theorem phaseC_preserve (fs : Fs) (program : RPath) (resource_dirs : List RPath)
    (parentEnv : String → Option Str) (w : String) :
    ∀ (env : List (String × EnvValue)) (st st2 : EnvVarChanges),
      (∀ p ∈ env, p.1 = w → noopC p.2) →
      phaseC fs program resource_dirs parentEnv env st = .ok st2 →
      st2.envs w = st.envs w := by
  intro env
  induction env with
  | nil =>
    intro st st2 _ h
    simp only [phaseC, foldEval, Except.ok.injEq] at h
    rw [← h]
  | cons e rest ih =>
    intro st st2 hkeys h
    obtain ⟨k, ev⟩ := e
    simp only [phaseC, foldEval] at h
    cases hstep : phaseCStep fs program resource_dirs parentEnv st (k, ev) with
    | error e0 => rw [hstep] at h; cases h
    | ok st1 =>
      rw [hstep] at h
      have h1 : st2.envs w = st1.envs w :=
        ih st1 st2 (fun q hq => hkeys q (List.mem_cons_of_mem _ hq)) h
      rw [h1]
      refine phaseCStep_preserve fs program resource_dirs parentEnv st k ev st1 w hstep ?_
      by_cases hkw : k = w
      · exact Or.inr (hkeys (k, ev) (List.mem_cons_self _ _) hkw)
      · exact Or.inl hkw

/-- C1: the final child environment of the metadata runtime is the result of
phase A (seeding: inherit, absent for `Clear`, fallback value when the
inherited value is missing), then phase B (dependency contributions), then
phase C (explicit `Set`/`Prepend`/`Append`), applied over a base environment
that is empty when `clear_env` is set.  The second conjunct characterizes the
phase-A seeds declaratively, and the third states that applying the
accumulated changes starts from the empty base under `clear_env`. -/
theorem metadata_env_staging_c1 (fs : Fs) (program : RPath) (resource_dirs : List RPath)
    (parentEnv : String → Option Str)
    (depEnv : RPath → List (String × DepEnvEntryKind)) (runnable : Runnable)
    (hnodup : (runnable.env.map Prod.fst).Nodup) :
    (metadataRunEnvs fs program resource_dirs parentEnv depEnv runnable =
      (((phaseA fs program resource_dirs parentEnv runnable.env
            (EnvVarChanges.new runnable.clear_env)).bind
          (phaseB fs program resource_dirs parentEnv depEnv runnable.dependencies)).bind
        (phaseC fs program resource_dirs parentEnv runnable.env)).map
        (fun st => st.apply_to_command parentEnv))
    ∧ (∀ stA, phaseA fs program resource_dirs parentEnv runnable.env
          (EnvVarChanges.new runnable.clear_env) = .ok stA →
        (∀ p ∈ runnable.env,
          stA.envs p.1 = seedSpec fs program resource_dirs parentEnv p.1 p.2)
        ∧ (∀ w, (∀ p ∈ runnable.env, p.1 ≠ w) → stA.envs w = none))
    ∧ (∀ st : EnvVarChanges, st.apply_to_command parentEnv =
        applyChangesSpec (if st.clear_envs then fun _ => none else parentEnv) st) := by
  refine ⟨?_, ?_, ?_⟩
  · rw [metadataRunEnvs]
    cases hA : phaseA fs program resource_dirs parentEnv runnable.env
        (EnvVarChanges.new runnable.clear_env) with
    | error e => rfl
    | ok stA =>
      cases hB : phaseB fs program resource_dirs parentEnv depEnv
          runnable.dependencies stA with
      | error e => simp [hB, Except.bind, Except.map]
      | ok stB =>
        cases hC : phaseC fs program resource_dirs parentEnv runnable.env stB with
        | error e => simp [hB, hC, Except.bind, Except.map]
        | ok stC => simp [hB, hC, Except.bind, Except.map]
  · intro stA hA
    have hs := phaseA_sound fs program resource_dirs parentEnv runnable.env
      (EnvVarChanges.new runnable.clear_env) hnodup (fun p _ => rfl) stA hA
    exact ⟨hs.1, fun w hw => hs.2 w hw⟩
  · intro st
    funext v
    cases hv : st.envs v with
    | some x => simp [EnvVarChanges.apply_to_command, applyChangesSpec, hv]
    | none =>
      cases hc : st.clear_envs <;>
        simp [EnvVarChanges.apply_to_command, applyChangesSpec, hv, hc]

/-- Trivial filesystem used for concrete witnesses. -/
def fs0 : Fs := ⟨fun _ => false, fun _ => false, fun _ => false, fun _ => false⟩

/-- Concrete stub path used for witnesses. -/
def prog0 : RPath := ⟨true, ["app", "stub"]⟩

/-- Empty parent environment. -/
def parent0 : String → Option Str := fun _ => none

/-- Dependency env reader with no contributions. -/
def depEnv0 : RPath → List (String × DepEnvEntryKind) := fun _ => []

/-- Witness for C1 at a concrete input. -/
theorem metadata_env_staging_c1_witness :
    (EnvVarChanges.new true).apply_to_command parent0 =
      applyChangesSpec
        (if (EnvVarChanges.new true).clear_envs then fun _ => none else parent0)
        (EnvVarChanges.new true) :=
  (metadata_env_staging_c1 fs0 prog0 [] parent0 depEnv0
    ⟨⟨[]⟩, [], [("A", EnvValue.inherit)], [], false⟩ (by decide)).2.2
    (EnvVarChanges.new true)

/-- Parent environment in which `X` is set to the empty string. -/
def parent5 : String → Option Str := fun v => if v = "X" then some "" else none

/-- C5 counterexample: with the inherited value of `X` present but empty, the
metadata runtime keeps the empty string instead of placing the evaluated
fallback value `"v"`, contradicting the claim's "unset or empty" condition. -/
theorem metadata_fallback_c5_counterexample :
    (metadataRunEnvs fs0 prog0 [] parent5 depEnv0
        ⟨⟨[]⟩, [], [("X", EnvValue.fallback ⟨[.literal "v"]⟩)], [], false⟩).map
        (fun f => f "X") = .ok (some "")
    ∧ (metadataRunEnvs fs0 prog0 [] parent5 depEnv0
        ⟨⟨[]⟩, [], [("X", EnvValue.fallback ⟨[.literal "v"]⟩)], [], false⟩).map
        (fun f => f "X") ≠ .ok (some "v")
    ∧ evalT fs0 prog0 [] ⟨[.literal "v"]⟩ = .ok "v" := by
  refine ⟨by decide, by decide, by decide⟩

/-- C5 (amended): for a `Fallback` env entry in a runnable without
dependencies and with distinct env names, the metadata runtime sets the
variable to the evaluated fallback value exactly when the inherited value is
unset, and keeps the inherited value otherwise — including when the inherited
value is the empty string. -/
theorem metadata_fallback_c5_amended (fs : Fs) (program : RPath)
    (resource_dirs : List RPath) (parentEnv : String → Option Str)
    (depEnv : RPath → List (String × DepEnvEntryKind)) (cmd : Template)
    (args : List ArgValue) (clear_env : Bool)
    (envList : List (String × EnvValue)) (name : String) (value : Template)
    (hnodup : (envList.map Prod.fst).Nodup)
    (hmem : (name, EnvValue.fallback value) ∈ envList)
    (hok : (metadataRunEnvs fs program resource_dirs parentEnv depEnv
        ⟨cmd, args, envList, [], clear_env⟩).isOk = true) :
    (metadataRunEnvs fs program resource_dirs parentEnv depEnv
        ⟨cmd, args, envList, [], clear_env⟩).map (fun f => f name) =
      .ok (match parentEnv name with
        | none => (evalT fs program resource_dirs value).toOption
        | some s => some s) := by
  have hun : metadataRunEnvs fs program resource_dirs parentEnv depEnv
      ⟨cmd, args, envList, [], clear_env⟩ =
        match phaseA fs program resource_dirs parentEnv envList
            (EnvVarChanges.new clear_env) with
        | .error e => .error e
        | .ok st =>
          match phaseC fs program resource_dirs parentEnv envList st with
          | .error e => .error e
          | .ok st => .ok (st.apply_to_command parentEnv) := by
    rw [metadataRunEnvs]
    cases phaseA fs program resource_dirs parentEnv envList
        (EnvVarChanges.new clear_env) <;> rfl
  rw [hun] at hok ⊢
  cases hA : phaseA fs program resource_dirs parentEnv envList
      (EnvVarChanges.new clear_env) with
  | error e => rw [hA] at hok; simp [Except.isOk, Except.toBool] at hok
  | ok stA =>
    rw [hA] at hok
    dsimp only at hok ⊢
    cases hC : phaseC fs program resource_dirs parentEnv envList stA with
    | error e => rw [hC] at hok; simp [Except.isOk, Except.toBool] at hok
    | ok stC =>
      have hseed : stA.envs name =
          seedSpec fs program resource_dirs parentEnv name (.fallback value) :=
        (phaseA_sound fs program resource_dirs parentEnv envList
          (EnvVarChanges.new clear_env) hnodup (fun p _ => rfl) stA hA).1
          (name, .fallback value) hmem
      have hkeep : stC.envs name = stA.envs name := by
        refine phaseC_preserve fs program resource_dirs parentEnv name envList stA stC
          ?_ hC
        intro p hp hpk
        have hp2eq : p.2 = EnvValue.fallback value := by
          have hp2 : (name, p.2) ∈ envList := by
            have hpp : p = (p.1, p.2) := rfl
            rw [hpp, hpk] at hp
            exact hp
          exact nodup_keys_eq hnodup hp2 hmem
        rw [hp2eq]
        exact Or.inr (Or.inr ⟨value, rfl⟩)
      have hval : stC.envs name = some (match parentEnv name with
          | none => (evalT fs program resource_dirs value).toOption
          | some s => some s) := by
        rw [hkeep, hseed]; rfl
      simp only [hC, Except.map]
      simp [EnvVarChanges.apply_to_command, hval]

/-! ## The metadata runtime: command and args
(src/crates/brioche-packed-plain-exec/src/main.rs, lines 150-172, and `main`
lines 12-21) -/

/-- The args-building loop of the metadata runtime: `Arg` values evaluate and
append; `Rest` consumes the stub's remaining argv exactly once
(`original_args.take()`), failing with `RepeatedArgs` when already consumed. -/
def buildArgsLoop (fs : Fs) (program : RPath) (resource_dirs : List RPath) :
    List ArgValue → Option (List Str) → List Str → Except PackedError (List Str)
  | [], _, acc => .ok acc
  | .arg value :: rest, original_args, acc =>
    match evalT fs program resource_dirs value with
    | .error e => .error e
    | .ok s => buildArgsLoop fs program resource_dirs rest original_args (acc ++ [s])
  | .rest :: restArgs, original_args, acc =>
    match original_args with
    | some tail => buildArgsLoop fs program resource_dirs restArgs none (acc ++ tail)
    | none => .error .repeatedArgs

/-- Build the child argv from `runnable.args`, starting with the stub's
received `argv[1..]` available for a single `Rest` splice. -/
def buildArgs (fs : Fs) (program : RPath) (resource_dirs : List RPath)
    (argvTail : List Str) (args : List ArgValue) : Except PackedError (List Str) :=
  buildArgsLoop fs program resource_dirs args (some argvTail) []

/-- The metadata-format branch of `run`: evaluate the command template, build
the args, stage the environment; the result models the `exec`ed command. -/
def metadataRun (fs : Fs) (program : RPath) (resource_dirs : List RPath)
    (parentEnv : String → Option Str)
    (depEnv : RPath → List (String × DepEnvEntryKind)) (argvTail : List Str)
    (runnable : Runnable) :
    Except PackedError (Str × List Str × (String → Option Str)) :=
  match evalT fs program resource_dirs runnable.command with
  | .error e => .error e
  | .ok program_str =>
    match buildArgs fs program resource_dirs argvTail runnable.args with
    | .error e => .error e
    | .ok args =>
      match metadataRunEnvs fs program resource_dirs parentEnv depEnv runnable with
      | .error e => .error e
      | .ok envFn => .ok (program_str, args, envFn)

/-- The `thiserror` display strings of `RunnableTemplateError` (formatted
payloads omitted). -/
def runnableTemplateErrorMessage : RunnableTemplateError → Str
  | .utf8Error => "invalid UTF-8 in runnable template"
  | .pathError => "invalid path in runnable template"
  | .invalidProgramPath => "invalid program path"
  | .packResourceDirError => "brioche pack resource dir error"
  | .resourceNotFound r => "resource not found: " ++ r
  | .prependAndAppend => "tried prepending and appending to env var"

/-- The `thiserror` display strings of `PackedError` (transparent foreign
errors and formatted payloads approximated). -/
def packedErrorMessage : PackedError → Str
  | .ioError => "io error"
  | .serdeJsonError => "serde_json error"
  | .extractPackError => "extract pack error"
  | .packResourceDirError => "pack resource dir error"
  | .runnableTemplateError e => runnableTemplateErrorMessage e
  | .repeatedArgs => "tried to pass remaining arguments more than once"
  | .resourceNotFound r => "resource not found: " ++ r
  | .invalidUtf8 b => "invalid UTF-8: " ++ b
  | .invalidPathBytes p => "invalid path: " ++ p
  | .invalidPath p => "invalid path: " ++ p
  | .invalidPathOsString p => "unconvertible path: " ++ p
  | .invalidDependencyEnvVar d v => "invalid env var " ++ v ++ " in dependency: " ++ d

/-- `main` of the plain stub: exit code 0 on success, `BRIOCHE_PACKED_ERROR`
(121) on any error. -/
def mainExitCode {α : Type} : Except PackedError α → Nat
  | .ok _ => 0
  | .error _ => 121

/-- `main` of the plain stub: the line printed to stderr on error. -/
def mainStderr {α : Type} : Except PackedError α → Option Str
  | .ok _ => none
  | .error e => some ("brioche-packed error: " ++ packedErrorMessage e)

/-- Number of `Rest` markers in an args list. -/
def countRest (args : List ArgValue) : Nat :=
  args.countP (fun a => match a with | .rest => true | _ => false)

/-- The templates of the `Arg` entries, in order. -/
def argTemplates : List ArgValue → List Template
  | [] => []
  | .arg value :: rest => value :: argTemplates rest
  | .rest :: rest => argTemplates rest

/-- Specification-level splice: each `Arg` contributes its evaluated value in
order and a `Rest` marker contributes the received argv tail. -/
def spliceSpec : List ArgValue → List Str → List Str → List Str
  | [], _, _ => []
  | .arg _ :: rest, v :: vs, tail => v :: spliceSpec rest vs tail
  | .arg _ :: rest, [], tail => spliceSpec rest [] tail
  | .rest :: rest, vs, tail => tail ++ spliceSpec rest vs tail

theorem countRest_cons_arg (value : Template) (rest : List ArgValue) :
    countRest (ArgValue.arg value :: rest) = countRest rest := by
  simp [countRest, List.countP_cons]

theorem countRest_cons_rest (rest : List ArgValue) :
    countRest (ArgValue.rest :: rest) = countRest rest + 1 := by
  simp [countRest, List.countP_cons]

theorem buildArgsLoop_ok (fs : Fs) (program : RPath) (resource_dirs : List RPath) :
    ∀ (args : List ArgValue) (vals : List Str) (orig : Option (List Str))
      (tail acc : List Str),
      mapEval (evalT fs program resource_dirs) (argTemplates args) = .ok vals →
      (orig = some tail ∧ countRest args ≤ 1 ∨ orig = none ∧ countRest args = 0) →
      buildArgsLoop fs program resource_dirs args orig acc =
        .ok (acc ++ spliceSpec args vals tail) := by
  intro args
  induction args with
  | nil => intro vals orig tail acc _ _; simp [buildArgsLoop, spliceSpec]
  | cons a rest ih =>
    intro vals orig tail acc hvals hcase
    cases a with
    | arg value =>
      simp only [argTemplates, mapEval] at hvals
      cases he : evalT fs program resource_dirs value with
      | error e => rw [he] at hvals; cases hvals
      | ok v =>
        rw [he] at hvals
        cases hrest : mapEval (evalT fs program resource_dirs) (argTemplates rest) with
        | error e => rw [hrest] at hvals; cases hvals
        | ok vs =>
          rw [hrest] at hvals
          simp only [Except.ok.injEq] at hvals
          subst hvals
          rw [countRest_cons_arg] at hcase
          simp only [buildArgsLoop, he]
          rw [ih vs orig tail (acc ++ [v]) hrest hcase]
          simp [spliceSpec, List.append_assoc]
    | rest =>
      rw [countRest_cons_rest] at hcase
      have hc : orig = some tail ∧ countRest rest = 0 := by
        rcases hcase with ⟨ho, hc⟩ | ⟨ho, hc⟩
        · exact ⟨ho, by omega⟩
        · omega
      rcases hc with ⟨ho, hc⟩
      subst ho
      simp only [argTemplates] at hvals
      simp only [buildArgsLoop]
      rw [ih vals none tail (acc ++ tail) hvals (Or.inr ⟨rfl, hc⟩)]
      simp [spliceSpec, List.append_assoc]

theorem buildArgsLoop_err (fs : Fs) (program : RPath) (resource_dirs : List RPath) :
    ∀ (args : List ArgValue) (vals : List Str) (orig : Option (List Str))
      (acc : List Str),
      mapEval (evalT fs program resource_dirs) (argTemplates args) = .ok vals →
      (orig = none ∧ 1 ≤ countRest args ∨ 2 ≤ countRest args) →
      buildArgsLoop fs program resource_dirs args orig acc = .error .repeatedArgs := by
  intro args
  induction args with
  | nil =>
    intro vals orig acc _ hcase
    rcases hcase with ⟨_, hc⟩ | hc <;> simp [countRest] at hc
  | cons a rest ih =>
    intro vals orig acc hvals hcase
    cases a with
    | arg value =>
      simp only [argTemplates, mapEval] at hvals
      cases he : evalT fs program resource_dirs value with
      | error e => rw [he] at hvals; cases hvals
      | ok v =>
        rw [he] at hvals
        cases hrest : mapEval (evalT fs program resource_dirs) (argTemplates rest) with
        | error e => rw [hrest] at hvals; cases hvals
        | ok vs =>
          rw [countRest_cons_arg] at hcase
          simp only [buildArgsLoop, he]
          exact ih vs orig (acc ++ [v]) hrest hcase
    | rest =>
      simp only [argTemplates] at hvals
      rw [countRest_cons_rest] at hcase
      cases orig with
      | none => simp [buildArgsLoop]
      | some tail =>
        have hc2 : 1 ≤ countRest rest := by
          rcases hcase with ⟨ho, _⟩ | hc
          · cases ho
          · omega
        simp only [buildArgsLoop]
        exact ih vals none (acc ++ tail) hvals (Or.inl ⟨rfl, hc2⟩)

/-- C6: walking `runnable.args`, each `Arg` contributes its evaluated OS
string in order and the first `Rest` splices the stub's received `argv[1..]`
exactly once; a second `Rest` makes the run fail with `RepeatedArgs`, the
process exiting with code 121 after printing `brioche-packed error: tried to
pass remaining arguments more than once` on stderr. -/
theorem metadata_args_rest_c6 (fs : Fs) (program : RPath) (resource_dirs : List RPath)
    (parentEnv : String → Option Str)
    (depEnv : RPath → List (String × DepEnvEntryKind)) (argvTail : List Str)
    (runnable : Runnable) (vals : List Str)
    (hvals : mapEval (evalT fs program resource_dirs) (argTemplates runnable.args) =
      .ok vals)
    (hcmd : (evalT fs program resource_dirs runnable.command).isOk = true) :
    (countRest runnable.args ≤ 1 →
      buildArgs fs program resource_dirs argvTail runnable.args =
        .ok (spliceSpec runnable.args vals argvTail))
    ∧ (2 ≤ countRest runnable.args →
        buildArgs fs program resource_dirs argvTail runnable.args =
            .error .repeatedArgs
        ∧ metadataRun fs program resource_dirs parentEnv depEnv argvTail runnable =
            .error .repeatedArgs
        ∧ mainExitCode
            (metadataRun fs program resource_dirs parentEnv depEnv argvTail runnable) =
            121
        ∧ mainStderr
            (metadataRun fs program resource_dirs parentEnv depEnv argvTail runnable) =
            some "brioche-packed error: tried to pass remaining arguments more than once") := by
  constructor
  · intro hone
    have := buildArgsLoop_ok fs program resource_dirs runnable.args vals
      (some argvTail) argvTail [] hvals (Or.inl ⟨rfl, hone⟩)
    simpa [buildArgs] using this
  · intro htwo
    have herr : buildArgs fs program resource_dirs argvTail runnable.args =
        .error .repeatedArgs :=
      buildArgsLoop_err fs program resource_dirs runnable.args vals
        (some argvTail) [] hvals (Or.inr htwo)
    have hrun : metadataRun fs program resource_dirs parentEnv depEnv argvTail
        runnable = .error .repeatedArgs := by
      rw [metadataRun]
      cases hc : evalT fs program resource_dirs runnable.command with
      | error e => rw [hc] at hcmd; simp [Except.isOk, Except.toBool] at hcmd
      | ok s => rw [herr]
    refine ⟨herr, hrun, ?_, ?_⟩ <;> rw [hrun] <;> rfl

/-- Witness for C6: a runnable with two `Rest` markers fails with
`RepeatedArgs`, exit code 121 and the expected stderr line. -/
theorem metadata_args_rest_c6_witness :
    buildArgs fs0 prog0 [] ["x"] [ArgValue.rest, ArgValue.rest] = .error .repeatedArgs
    ∧ metadataRun fs0 prog0 [] parent0 depEnv0 ["x"]
        ⟨⟨[.literal "sh"]⟩, [ArgValue.rest, ArgValue.rest], [], [], false⟩ =
        .error .repeatedArgs
    ∧ mainExitCode (metadataRun fs0 prog0 [] parent0 depEnv0 ["x"]
        ⟨⟨[.literal "sh"]⟩, [ArgValue.rest, ArgValue.rest], [], [], false⟩) = 121
    ∧ mainStderr (metadataRun fs0 prog0 [] parent0 depEnv0 ["x"]
        ⟨⟨[.literal "sh"]⟩, [ArgValue.rest, ArgValue.rest], [], [], false⟩) =
        some "brioche-packed error: tried to pass remaining arguments more than once" :=
  (metadata_args_rest_c6 fs0 prog0 [] parent0 depEnv0 ["x"]
    ⟨⟨[.literal "sh"]⟩, [ArgValue.rest, ArgValue.rest], [], [], false⟩ []
    (by decide) (by decide)).2 (by decide)

/-! ## The resource-dir search (src/crates/brioche-resources/src/lib.rs) -/

/-- `PackResourceDirError` (the payload of `IoError` omitted). -/
inductive PackResourceDirError
  | notFound
  | ioError
  | depthLimitReached
deriving DecidableEq, Repr

/-- `SEARCH_DEPTH_LIMIT`. -/
def SEARCH_DEPTH_LIMIT : Nat := 64

/-- Result of the ancestor-walk loop: the `brioche-resources.d` directories
pushed, the `found` flag and the `reached_end` flag. -/
structure WalkOut where
  dirs : List RPath
  found : Bool
  reachedEnd : Bool
deriving DecidableEq, Repr

/-- The `for _ in 0..SEARCH_DEPTH_LIMIT` loop of
`find_resource_dirs_from_program`: check `current/brioche-resources.d` at each
ancestor, stop early (with `reached_end`) when an ancestor has no parent. -/
def ancestorWalk (isDir : RPath → Bool) : Nat → RPath → WalkOut
  | 0, _ => ⟨[], false, false⟩
  | n + 1, current =>
    let hit := current.join ⟨false, ["brioche-resources.d"]⟩
    let found0 := isDir hit
    let dirs0 := if isDir hit then [hit] else []
    match current.parent with
    | none => ⟨dirs0, found0, true⟩
    | some p =>
      let w := ancestorWalk isDir n p
      ⟨dirs0 ++ w.dirs, found0 || w.found, w.reachedEnd⟩

/-- `find_resource_dirs_from_program`. -/
def find_resource_dirs_from_program (isDir : RPath → Bool) (cwd program : RPath) :
    Except PackResourceDirError (List RPath) :=
  match (cwd.join program).parent with
  | none => .error .notFound
  | some start =>
    let w := ancestorWalk isDir SEARCH_DEPTH_LIMIT start
    if w.found then .ok w.dirs
    else if w.reachedEnd then .error .notFound
    else .error .depthLimitReached

/-- The environment-provided entries of the search list:
`BRIOCHE_RESOURCE_DIR`, then (when `include_readonly`) both the byte-split and
the `std::env::split_paths` decompositions of `BRIOCHE_INPUT_RESOURCE_DIRS`
(identical on Unix, so the entries appear twice, as in the source). -/
def envResourcePaths (envResourceDir envInputResourceDirs : Option Str)
    (include_readonly : Bool) : List RPath :=
  (match envResourceDir with
    | some s => [parsePath s]
    | none => []) ++
  (if include_readonly then
    match envInputResourceDirs with
    | some s => (s.splitOn ":").map parsePath ++ (s.splitOn ":").map parsePath
    | none => []
  else [])

/-- `find_resource_dirs`: env-provided entries, then the ancestor walk;
a `NotFound` from the walk is tolerated, any other walk error is returned,
and an empty final list is `NotFound`. -/
def find_resource_dirs (envResourceDir envInputResourceDirs : Option Str)
    (include_readonly : Bool) (isDir : RPath → Bool) (cwd program : RPath) :
    Except PackResourceDirError (List RPath) :=
  let paths := envResourcePaths envResourceDir envInputResourceDirs include_readonly
  match find_resource_dirs_from_program isDir cwd program with
  | .ok dirs =>
    if (paths ++ dirs).isEmpty then .error .notFound else .ok (paths ++ dirs)
  | .error .notFound =>
    if paths.isEmpty then .error .notFound else .ok paths
  | .error e => .error e

/-- The ancestor directories the walk visits: the start directory and its
parents, up to the fuel bound or the root. -/
def ancestors : Nat → RPath → List RPath
  | 0, _ => []
  | n + 1, p =>
    p :: (match p.parent with
      | none => []
      | some q => ancestors n q)

theorem ancestorWalk_found (isDir : RPath → Bool) :
    ∀ (n : Nat) (start : RPath),
      (ancestorWalk isDir n start).found = true ↔
        ∃ d ∈ ancestors n start,
          isDir (d.join ⟨false, ["brioche-resources.d"]⟩) = true := by
  intro n
  induction n with
  | zero => intro start; simp [ancestorWalk, ancestors]
  | succ n ih =>
    intro start
    cases hp : start.parent with
    | none =>
      cases hd : isDir (start.join ⟨false, ["brioche-resources.d"]⟩) <;>
        simp [ancestorWalk, ancestors, hp, hd]
    | some p =>
      cases hd : isDir (start.join ⟨false, ["brioche-resources.d"]⟩) <;>
        simp [ancestorWalk, ancestors, hp, hd, ih p]

theorem ancestorWalk_end (isDir : RPath → Bool) :
    ∀ (n : Nat) (start : RPath),
      (ancestorWalk isDir n start).reachedEnd = true ↔
        ∃ d ∈ ancestors n start, d.parent = none := by
  intro n
  induction n with
  | zero => intro start; simp [ancestorWalk, ancestors]
  | succ n ih =>
    intro start
    cases hp : start.parent with
    | none => simp [ancestorWalk, ancestors, hp]
    | some p => simp [ancestorWalk, ancestors, hp, ih p]

theorem ancestorWalk_found_dirs_ne (isDir : RPath → Bool) :
    ∀ (n : Nat) (start : RPath),
      (ancestorWalk isDir n start).found = true →
      (ancestorWalk isDir n start).dirs ≠ [] := by
  intro n
  induction n with
  | zero => intro start h; simp [ancestorWalk] at h
  | succ n ih =>
    intro start h
    cases hp : start.parent with
    | none =>
      rw [ancestorWalk] at h ⊢
      cases hd : isDir (start.join ⟨false, ["brioche-resources.d"]⟩) <;>
        simp [hp, hd] at h ⊢
    | some p =>
      rw [ancestorWalk] at h ⊢
      cases hd : isDir (start.join ⟨false, ["brioche-resources.d"]⟩) <;>
        simp [hp, hd] at h ⊢
      exact ih p h

/-- C7 (amended): with a well-formed program path, `find_resource_dirs`
fails with `DepthLimitReached` exactly when the 64 visited ancestors neither
reach the filesystem root nor contain any `brioche-resources.d` directory
(even when env-provided entries are present); it fails with `NotFound`
exactly when the env-provided entries are absent, the walk found no
`brioche-resources.d` directory, and the walk reached the root. -/
theorem find_resource_dirs_errors_c7 (envResourceDir envInputResourceDirs : Option Str)
    (include_readonly : Bool) (isDir : RPath → Bool) (cwd program start : RPath)
    (hstart : (cwd.join program).parent = some start) :
    (find_resource_dirs envResourceDir envInputResourceDirs include_readonly isDir
        cwd program = .error .depthLimitReached ↔
      (∀ d ∈ ancestors SEARCH_DEPTH_LIMIT start,
          isDir (d.join ⟨false, ["brioche-resources.d"]⟩) = false)
      ∧ (∀ d ∈ ancestors SEARCH_DEPTH_LIMIT start, d.parent ≠ none))
    ∧ (find_resource_dirs envResourceDir envInputResourceDirs include_readonly isDir
        cwd program = .error .notFound ↔
      (envResourcePaths envResourceDir envInputResourceDirs include_readonly = []
      ∧ (∀ d ∈ ancestors SEARCH_DEPTH_LIMIT start,
          isDir (d.join ⟨false, ["brioche-resources.d"]⟩) = false)
      ∧ (∃ d ∈ ancestors SEARCH_DEPTH_LIMIT start, d.parent = none))) := by
  have hfound := ancestorWalk_found isDir SEARCH_DEPTH_LIMIT start
  have hend := ancestorWalk_end isDir SEARCH_DEPTH_LIMIT start
  have hdirs := ancestorWalk_found_dirs_ne isDir SEARCH_DEPTH_LIMIT start
  cases hf : (ancestorWalk isDir SEARCH_DEPTH_LIMIT start).found with
  | true =>
    have hex := hfound.mp hf
    have hdne := hdirs hf
    have hemp : (envResourcePaths envResourceDir envInputResourceDirs include_readonly ++
        (ancestorWalk isDir SEARCH_DEPTH_LIMIT start).dirs).isEmpty = false := by
      cases hE : (envResourcePaths envResourceDir envInputResourceDirs include_readonly ++
          (ancestorWalk isDir SEARCH_DEPTH_LIMIT start).dirs).isEmpty
      · rfl
      · exfalso
        have hnil := List.isEmpty_iff.mp hE
        rcases List.append_eq_nil.mp hnil with ⟨_, h2⟩
        exact hdne h2
    have hres : find_resource_dirs envResourceDir envInputResourceDirs include_readonly
        isDir cwd program =
          .ok (envResourcePaths envResourceDir envInputResourceDirs include_readonly ++
            (ancestorWalk isDir SEARCH_DEPTH_LIMIT start).dirs) := by
      simp [find_resource_dirs, find_resource_dirs_from_program, hstart, hf, hemp]
    rw [hres]
    constructor
    · constructor
      · intro hcon; exact Except.noConfusion hcon
      · rintro ⟨hall, _⟩
        rcases hex with ⟨d, hd, hdt⟩
        rw [hall d hd] at hdt
        cases hdt
    · constructor
      · intro hcon; exact Except.noConfusion hcon
      · rintro ⟨_, hall, _⟩
        rcases hex with ⟨d, hd, hdt⟩
        rw [hall d hd] at hdt
        cases hdt
  | false =>
    have hnall : ∀ d ∈ ancestors SEARCH_DEPTH_LIMIT start,
        isDir (d.join ⟨false, ["brioche-resources.d"]⟩) = false := by
      intro d hd
      cases hv : isDir (d.join ⟨false, ["brioche-resources.d"]⟩)
      · rfl
      · exfalso
        rw [hfound.mpr ⟨d, hd, hv⟩] at hf
        cases hf
    cases he : (ancestorWalk isDir SEARCH_DEPTH_LIMIT start).reachedEnd with
    | true =>
      have hroot := hend.mp he
      cases hE : (envResourcePaths envResourceDir envInputResourceDirs
          include_readonly).isEmpty with
      | true =>
        have hnil := List.isEmpty_iff.mp hE
        have hres : find_resource_dirs envResourceDir envInputResourceDirs
            include_readonly isDir cwd program = .error .notFound := by
          simp [find_resource_dirs, find_resource_dirs_from_program, hstart, hf, he, hE]
        rw [hres]
        constructor
        · constructor
          · intro hcon; cases hcon
          · rintro ⟨_, hnone⟩
            rcases hroot with ⟨d, hd, hdp⟩
            exact (hnone d hd hdp).elim
        · constructor
          · intro _; exact ⟨hnil, hnall, hroot⟩
          · intro _; rfl
      | false =>
        have hres : find_resource_dirs envResourceDir envInputResourceDirs
            include_readonly isDir cwd program =
              .ok (envResourcePaths envResourceDir envInputResourceDirs
                include_readonly) := by
          simp [find_resource_dirs, find_resource_dirs_from_program, hstart, hf, he, hE]
        rw [hres]
        constructor
        · constructor
          · intro hcon; exact Except.noConfusion hcon
          · rintro ⟨_, hnone⟩
            rcases hroot with ⟨d, hd, hdp⟩
            exact (hnone d hd hdp).elim
        · constructor
          · intro hcon; exact Except.noConfusion hcon
          · rintro ⟨hnil, _, _⟩
            rw [hnil] at hE
            cases hE
    | false =>
      have hnoroot : ∀ d ∈ ancestors SEARCH_DEPTH_LIMIT start, d.parent ≠ none := by
        intro d hd hdp
        rw [hend.mpr ⟨d, hd, hdp⟩] at he
        cases he
      have hres : find_resource_dirs envResourceDir envInputResourceDirs
          include_readonly isDir cwd program = .error .depthLimitReached := by
        simp [find_resource_dirs, find_resource_dirs_from_program, hstart, hf, he]
      rw [hres]
      constructor
      · constructor
        · intro _; exact ⟨hnall, hnoroot⟩
        · intro _; rfl
      · constructor
        · intro hcon; cases hcon
        · rintro ⟨_, _, hroot⟩
          rcases hroot with ⟨d, hd, hdp⟩
          exact (hnoroot d hd hdp).elim

/-- Concrete deep path for the C7 counterexample. -/
def cwdC : RPath := ⟨true, []⟩

/-- A program 66 components deep, so that 64 ancestors pass without reaching
the filesystem root. -/
def programC : RPath := ⟨true, List.replicate 66 "a"⟩

/-- The first visited ancestor of `programC`. -/
def startC : RPath := ⟨true, List.replicate 65 "a"⟩

/-- Filesystem in which exactly the first visited ancestor contains a
`brioche-resources.d` directory. -/
def isDirC : RPath → Bool := fun p =>
  p.components.length == 66 && (p.components.getLast? == some "brioche-resources.d")

/-- C7 counterexample: the walk passes 64 ancestors of `programC` without
reaching the filesystem root, yet `find_resource_dirs` succeeds (it found a
`brioche-resources.d` directory at the first ancestor) instead of failing
with `DepthLimitReached` as the claim states. -/
theorem find_resource_dirs_c7_counterexample :
    find_resource_dirs none none true isDirC cwdC programC =
      .ok [⟨true, List.replicate 65 "a" ++ ["brioche-resources.d"]⟩]
    ∧ (cwdC.join programC).parent = some startC
    ∧ (∀ d ∈ ancestors SEARCH_DEPTH_LIMIT startC, d.parent ≠ none)
    ∧ (ancestors SEARCH_DEPTH_LIMIT startC).length = 64 := by
  refine ⟨by decide, by decide, by decide, by decide⟩

/-- Witness for C7 at a concrete shallow input: the walk reaches the root
without finding anything, and the NotFound/DepthLimitReached conditions
evaluate as characterized. -/
theorem find_resource_dirs_errors_c7_witness :
    (find_resource_dirs (some "/res") none false (fun _ => false) cwdC
        ⟨true, ["a", "b"]⟩ = .error .depthLimitReached ↔
      (∀ d ∈ ancestors SEARCH_DEPTH_LIMIT (⟨true, ["a"]⟩ : RPath),
          (fun (_ : RPath) => false) (d.join ⟨false, ["brioche-resources.d"]⟩) = false)
      ∧ (∀ d ∈ ancestors SEARCH_DEPTH_LIMIT (⟨true, ["a"]⟩ : RPath),
          d.parent ≠ none)) :=
  (find_resource_dirs_errors_c7 (some "/res") none false (fun _ => false) cwdC
    ⟨true, ["a", "b"]⟩ ⟨true, ["a"]⟩ (by decide)).1

/-! ## The directory hash of the resource store
(src/crates/brioche-resources/src/lib.rs, `hash_directory` and
`add_resource_directory`) -/

/-- Model of the external `tick_encoding::encode` on one byte: bytes in the
safe set map to themselves, others to an escape sequence.  The precise escape
alphabet of the external crate is irrelevant to the claims; only injectivity
on the safe set matters, and all concrete inputs below stay in the safe set. -/
def tickEncChar (c : Char) : Str :=
  if c.isAlphanum || c == '-' || c == '_' || c == '.' || c == '/' then
    String.singleton c
  else "%" ++ toString c.toNat

/-- Model of `tick_encoding::encode` over a byte string. -/
def tickEnc (s : Str) : Str :=
  String.join (s.data.map tickEncChar)

/-- A filesystem subtree: regular files (contents and the `0o111` executable
bit), directories (named entries) and symlinks (targets). -/
inductive FsTree
  | file (contents : Str) (is_executable : Bool)
  | dir (entries : List (String × FsTree))
  | symlink (target : Str)

theorem sizeOf_insertSortedBy {α : Type} [SizeOf α] (key : α → String) (e : α) :
    ∀ l : List α, sizeOf (insertSortedBy key e l) = 1 + sizeOf e + sizeOf l := by
  intro l
  induction l with
  | nil => simp [insertSortedBy]
  | cons f rest ih =>
    by_cases h : key e ≤ key f <;> (simp [insertSortedBy, h, ih]; try omega)

theorem sizeOf_sortByKeyStr {α : Type} [SizeOf α] (key : α → String) :
    ∀ l : List α, sizeOf (sortByKeyStr key l) = sizeOf l := by
  intro l
  induction l with
  | nil => rfl
  | cons e rest ih => simp [sortByKeyStr, sizeOf_insertSortedBy, ih]

mutual
/-- The byte stream `hash_directory` feeds to the blake3 hasher while walking
`path` with `walkdir` sorted by file name: for each entry it writes a record
containing the tick-encoded **full entry path** (`entry.path()`, which
includes the walk root), then file bytes or the encoded symlink target.  The
`is_executable` flag prints as `true`/`false` and the file length precedes
the raw contents. -/
def FsTree.stream : Str → FsTree → Str
  | path, .file contents is_executable =>
    "f:" ++ tickEnc path ++ ":" ++ toString contents.length ++ ":" ++
      (if is_executable then "true" else "false") ++ "\n" ++ contents
  | path, .symlink target =>
    "s:" ++ tickEnc path ++ ":" ++ toString (tickEnc target).length ++ "\n" ++
      tickEnc target
  | path, .dir entries =>
    "d:" ++ tickEnc path ++ "\n" ++
      streamEntries path (sortByKeyStr (fun e => e.1) entries)
termination_by _p t => sizeOf t
decreasing_by
  simp [sizeOf_sortByKeyStr]
  try omega

/-- Stream the (already sorted) entries of a directory, depth first, each
under its full path `path ++ "/" ++ name`. -/
def streamEntries : Str → List (String × FsTree) → Str
  | _, [] => ""
  | path, (n, t) :: rest =>
    FsTree.stream (path ++ "/" ++ n) t ++ streamEntries path rest
termination_by _p l => sizeOf l
decreasing_by
  all_goals simp
  all_goals omega
end

/-- `hash_directory`: blake3 is modelled as the identity on the hashed byte
stream (an ideal, collision-free hash), so two hashes are equal exactly when
the streams fed to the hasher are equal. -/
def hash_directory (path : Str) (tree : FsTree) : Str :=
  FsTree.stream path tree

/-- The final resource name chosen by `add_resource_directory`: the directory
is first copied to a fresh `ulid`-named temp path under `directories/`, then
hashed **at that temp path** and renamed to `directories/<hash>.d`. -/
def add_resource_directory_name (temp_path : Str) (tree : FsTree) : Str :=
  hash_directory temp_path tree ++ ".d"

/-- C2 (code bug): hashing the identical directory tree rooted at two
different temp paths (two `add_resource_directory` runs draw different ULID
temp names) yields different hash streams, because `hash_directory` feeds
`entry.path()` — the full path including the random walk root — to the
hasher.  The claim (and the spec's determinism requirement) say the hash
depends only on the recursive contents. -/
theorem hash_directory_path_dependent_c2 :
    hash_directory "directories/01A"
        (FsTree.dir [("hello.txt", FsTree.file "hi" false)]) ≠
      hash_directory "directories/01B"
        (FsTree.dir [("hello.txt", FsTree.file "hi" false)])
    ∧ add_resource_directory_name "directories/01A"
        (FsTree.dir [("hello.txt", FsTree.file "hi" false)]) ≠
      add_resource_directory_name "directories/01B"
        (FsTree.dir [("hello.txt", FsTree.file "hi" false)]) := by
  have h1 : hash_directory "directories/01A"
      (FsTree.dir [("hello.txt", FsTree.file "hi" false)]) =
        "d:directories/01A\nf:directories/01A/hello.txt:2:false\nhi" := by
    rw [hash_directory, FsTree.stream]
    rw [sortByKeyStr, sortByKeyStr, insertSortedBy]
    rw [streamEntries, FsTree.stream, streamEntries]
    decide
  have h2 : hash_directory "directories/01B"
      (FsTree.dir [("hello.txt", FsTree.file "hi" false)]) =
        "d:directories/01B\nf:directories/01B/hello.txt:2:false\nhi" := by
    rw [hash_directory, FsTree.stream]
    rw [sortByKeyStr, sortByKeyStr, insertSortedBy]
    rw [streamEntries, FsTree.stream, streamEntries]
    decide
  constructor
  · rw [h1, h2]; decide
  · rw [add_resource_directory_name, add_resource_directory_name, h1, h2]; decide

/-! ## Script interpreter lookup
(src/crates/brioche-autopack/src/lib.rs, `find_script_interpreter` and
`add_named_blob_from`) -/

/-- `Template::from_runnable_subpath`.  Modelled from the spec: this
constructor belongs to `runnable-core`, whose copy under `src/` predates it;
per the spec a runnable path is a relative-to-stub or resource reference, and
the optional subpath extends it, yielding the matching template component. -/
def Template.from_runnable_subpath (dependency : RunnablePath)
    (subpath : Option Str) : Template :=
  match dependency, subpath with
  | .relativePath p, some s => ⟨[.relativePath (p ++ "/" ++ s)]⟩
  | .relativePath p, none => ⟨[.relativePath p]⟩
  | .resource r, some s => ⟨[.resource (r ++ "/" ++ s)]⟩
  | .resource r, none => ⟨[.resource r]⟩

/-- The first loop of `find_script_interpreter`: look for the interpreter as
`bin/<interpreter>` under each runtime dependency; `fs::metadata` must
succeed and the entry must be an executable regular file. -/
def findInterpreterInDependencies (fs : Fs) (interpreter : String)
    (output_path resource_dir : RPath) :
    List RunnablePath → Except Str (Option Template)
  | [] => .ok none
  | dependency :: rest =>
    match dependency.to_path fs output_path [resource_dir] with
    | .error _ => .error "dependency resource not found"
    | .ok dependency_path =>
      let dependency_interpreter_path :=
        dependency_path.join ⟨false, ["bin", interpreter]⟩
      if fs.existsAt dependency_interpreter_path then
        if fs.isFile dependency_interpreter_path &&
            fs.isExec dependency_interpreter_path then
          .ok (some (Template.from_runnable_subpath dependency
            (some ("bin/" ++ interpreter))))
        else findInterpreterInDependencies fs interpreter output_path resource_dir rest
      else findInterpreterInDependencies fs interpreter output_path resource_dir rest

/-- The second loop of `find_script_interpreter`, translated faithfully: the
source computes `link_dependency_path.join(interpreter)` but then tests
`link_dependency_path.is_file()` and selects `link_dependency_path` itself —
the joined interpreter path is never used. -/
def findFirstFileLinkDep (fs : Fs) : List RPath → Option RPath
  | [] => none
  | link_dependency_path :: rest =>
    if fs.isFile link_dependency_path then some link_dependency_path
    else findFirstFileLinkDep fs rest

/-- `find_script_interpreter`: runtime dependencies first, then the link
dependency paths; a link-dependency hit is ingested into the resource store
(`add_named_blob_from`, abstracted by `ingest`, which returns the resource
path of the ingested blob) and referenced as a resource template.
`try_autopack_dependency` only has filesystem side effects and is omitted. -/
def find_script_interpreter (fs : Fs) (ingest : RPath → Str)
    (link_dependency_paths : List RPath) (interpreter : String)
    (dependencies : List RunnablePath) (output_path resource_dir : RPath) :
    Except Str Template :=
  match findInterpreterInDependencies fs interpreter output_path resource_dir
      dependencies with
  | .error e => .error e
  | .ok (some t) => .ok t
  | .ok none =>
    match findFirstFileLinkDep fs link_dependency_paths with
    | none => .error ("could not find script interpreter " ++ interpreter)
    | some interpreter_path =>
      .ok (Template.from_resource_path (ingest interpreter_path))

/-- A link dependency path (a `$PATH`-style directory) for the C8 input. -/
def depsBin : RPath := ⟨true, ["deps", "bin"]⟩

/-- The interpreter file inside `depsBin` for the C8 input. -/
def depsBinBash : RPath := ⟨true, ["deps", "bin", "bash"]⟩

/-- Filesystem for the C8 input: `deps/bin` is a directory containing the
executable regular file `deps/bin/bash`. -/
def fsC8 : Fs :=
  ⟨fun p => p == depsBin || p == depsBinBash,
   fun p => p == depsBinBash,
   fun p => p == depsBin,
   fun p => p == depsBinBash⟩

/-- C8 (code bug): with no runtime-dependency hit and a link dependency path
`deps/bin` under which `bash` exists as an executable regular file, the claim
says the interpreter is located there and ingested; the code instead tests
whether the link dependency path itself is a regular file (never consulting
the joined interpreter path it computes), so the lookup fails with
`could not find script interpreter`. -/
theorem find_script_interpreter_c8 :
    find_script_interpreter fsC8 (fun _ => "aliases/bash/b/bash") [depsBin] "bash"
        [] prog0 ⟨true, ["store"]⟩ =
      .error "could not find script interpreter bash"
    ∧ fsC8.isFile (depsBin.join ⟨false, ["bash"]⟩) = true
    ∧ fsC8.isExec (depsBin.join ⟨false, ["bash"]⟩) = true
    ∧ fsC8.isFile depsBin = false := by
  refine ⟨by decide, by decide, by decide, by decide⟩

/-! ## The two runtime stubs on an `LdLinux` pack
(src/crates/brioche-packed-plain-exec/src/main.rs, lines 34-141, and
src/crates/brioche-packed-userland-exec/src/linux.rs, lines 57-151) -/

/-- `PackedError` of the userland stub (payload-free variants). -/
inductive UserlandPackedError
  | ioError
  | extractPackError
  | packResourceDirError
  | invalidPath
  | resourceNotFound
deriving DecidableEq, Repr

/-- Join the resolved library dirs with `:` and append a non-empty
`LD_LIBRARY_PATH`; this loop is byte-for-byte identical in the two stubs. -/
def joinLibraryPath (resolved : List RPath) (ld_library_path : Option Str) : Str :=
  let joined := String.intercalate ":" (resolved.map RPath.render)
  match ld_library_path with
  | some env => if env.isEmpty then joined else joined ++ ":" ++ env
  | none => joined

/-- Resolve each pack `library_dirs` subpath through the resource dirs
(plain stub: `ResourceNotFound { resource }` on a miss). -/
def resolveLibraryDirsPlain (fs : Fs) (resource_dirs : List RPath) :
    List Str → Except PackedError (List RPath)
  | [] => .ok []
  | d :: rest =>
    match find_in_resource_dirs fs resource_dirs (parsePath d) with
    | none => .error (.resourceNotFound d)
    | some p =>
      match resolveLibraryDirsPlain fs resource_dirs rest with
      | .error e => .error e
      | .ok ps => .ok (p :: ps)

/-- Resolve each pack `library_dirs` subpath through the resource dirs
(userland stub: payload-free `ResourceNotFound` on a miss). -/
def resolveLibraryDirsUserland (fs : Fs) (resource_dirs : List RPath) :
    List Str → Except UserlandPackedError (List RPath)
  | [] => .ok []
  | d :: rest =>
    match find_in_resource_dirs fs resource_dirs (parsePath d) with
    | none => .error .resourceNotFound
    | some p =>
      match resolveLibraryDirsUserland fs resource_dirs rest with
      | .error e => .error e
      | .ok ps => .ok (p :: ps)

/-- `CString::new`: fails (`InvalidPath` in the userland stub) exactly when
the bytes contain an interior NUL. -/
def hasNulByte (s : Str) : Bool :=
  s.data.any (fun c => c.toNat = 0)

/-- The effective interpreter argv built by the plain stub for an `LdLinux`
pack: the resolved interpreter (the `Command` program, hence `argv[0]`), the
optional `--library-path` pair, the optional `--argv0` pair from the received
`argv[0]`, the canonicalised program path, and the received `argv[1..]`.
`canon` abstracts `Path::canonicalize` (`none` models an I/O error). -/
def plain_ld_run (fs : Fs) (resource_dirs : List RPath)
    (program_parent_path : RPath) (canon : RPath → Option RPath)
    (ld_library_path : Option Str) (argv : List Str)
    (program interpreter : Str) (library_dirs runtime_library_dirs : List Str) :
    Except PackedError (List Str) :=
  match find_in_resource_dirs fs resource_dirs (parsePath interpreter) with
  | none => .error (.resourceNotFound interpreter)
  | some interpreterPath =>
    let resolved₁ :=
      runtime_library_dirs.map (fun d => program_parent_path.join (parsePath d))
    match resolveLibraryDirsPlain fs resource_dirs library_dirs with
    | .error e => .error e
    | .ok resolved₂ =>
      let resolved := resolved₁ ++ resolved₂
      let libArgs :=
        if resolved.isEmpty then []
        else ["--library-path", joinLibraryPath resolved ld_library_path]
      let argvZero :=
        match argv.head? with
        | some arg0 => ["--argv0", arg0]
        | none => []
      match find_in_resource_dirs fs resource_dirs (parsePath program) with
      | none => .error (.resourceNotFound program)
      | some programPath =>
        match canon programPath with
        | none => .error .ioError
        | some programCanon =>
          .ok ([interpreterPath.render] ++ libArgs ++ argvZero ++
            [programCanon.render] ++ argv.drop 1)

/-- The effective interpreter argv built by the userland stub for an
`LdLinux` pack; same data, but the program is resolved before the library
dirs, every argv entry passes through `CString::new`, and the interpreter is
pushed explicitly as `argv[0]`. -/
def userland_ld_run (fs : Fs) (resource_dirs : List RPath)
    (program_parent_path : RPath) (canon : RPath → Option RPath)
    (ld_library_path : Option Str) (argv : List Str)
    (program interpreter : Str) (library_dirs runtime_library_dirs : List Str) :
    Except UserlandPackedError (List Str) :=
  match find_in_resource_dirs fs resource_dirs (parsePath interpreter) with
  | none => .error .resourceNotFound
  | some interpreterPath =>
    match find_in_resource_dirs fs resource_dirs (parsePath program) with
    | none => .error .resourceNotFound
    | some programPath =>
      match canon programPath with
      | none => .error .ioError
      | some programCanon =>
        if hasNulByte interpreterPath.render then .error .invalidPath
        else
          let resolved₁ :=
            runtime_library_dirs.map (fun d => program_parent_path.join (parsePath d))
          match resolveLibraryDirsUserland fs resource_dirs library_dirs with
          | .error e => .error e
          | .ok resolved₂ =>
            let resolved := resolved₁ ++ resolved₂
            if resolved.isEmpty then
              let argvZero :=
                match argv.head? with
                | some arg0 => ["--argv0", arg0]
                | none => []
              if hasNulByte programCanon.render then .error .invalidPath
              else
                .ok ([interpreterPath.render] ++ argvZero ++
                  [programCanon.render] ++ argv.drop 1)
            else
              if hasNulByte (joinLibraryPath resolved ld_library_path) then
                .error .invalidPath
              else
                let argvZero :=
                  match argv.head? with
                  | some arg0 => ["--argv0", arg0]
                  | none => []
                if hasNulByte programCanon.render then .error .invalidPath
                else
                  .ok ([interpreterPath.render] ++
                    ["--library-path", joinLibraryPath resolved ld_library_path] ++
                    argvZero ++ [programCanon.render] ++ argv.drop 1)

theorem resolveLibraryDirs_agree (fs : Fs) (resource_dirs : List RPath) :
    ∀ library_dirs : List Str,
      (resolveLibraryDirsPlain fs resource_dirs library_dirs).toOption =
        (resolveLibraryDirsUserland fs resource_dirs library_dirs).toOption := by
  intro library_dirs
  induction library_dirs with
  | nil => rfl
  | cons d rest ih =>
    cases hf : find_in_resource_dirs fs resource_dirs (parsePath d) with
    | none =>
      simp [resolveLibraryDirsPlain, resolveLibraryDirsUserland, hf, Except.toOption]
    | some p =>
      simp only [resolveLibraryDirsPlain, resolveLibraryDirsUserland, hf]
      cases hp : resolveLibraryDirsPlain fs resource_dirs rest <;>
        cases hu : resolveLibraryDirsUserland fs resource_dirs rest <;>
          rw [hp, hu] at ih <;>
            simp_all [Except.toOption]

/-- C9: for an `LdLinux` pack and identical received argv and environment,
the userland stub builds the same effective interpreter argument vector as
the plain stub (same resolved interpreter, same colon-joined
`--library-path` with `LD_LIBRARY_PATH` appended when set and non-empty,
same `--argv0` from the received `argv[0]`, same canonicalised program path,
same remaining argv tail), and the two runs succeed or fail together —
provided the userland stub does not fail on a `CString` interior-NUL, the
one check the plain stub does not perform. -/
theorem userland_matches_plain_c9 (fs : Fs) (resource_dirs : List RPath)
    (program_parent_path : RPath) (canon : RPath → Option RPath)
    (ld_library_path : Option Str) (argv : List Str) (program interpreter : Str)
    (library_dirs runtime_library_dirs : List Str)
    (hnul : userland_ld_run fs resource_dirs program_parent_path canon
        ld_library_path argv program interpreter library_dirs
        runtime_library_dirs ≠ .error .invalidPath) :
    (plain_ld_run fs resource_dirs program_parent_path canon ld_library_path argv
        program interpreter library_dirs runtime_library_dirs).toOption =
      (userland_ld_run fs resource_dirs program_parent_path canon ld_library_path
        argv program interpreter library_dirs runtime_library_dirs).toOption := by
  rw [plain_ld_run, userland_ld_run] at *
  cases hI : find_in_resource_dirs fs resource_dirs (parsePath interpreter) with
  | none => rfl
  | some interpreterPath =>
    have hlib := resolveLibraryDirs_agree fs resource_dirs library_dirs
    cases hP : find_in_resource_dirs fs resource_dirs (parsePath program) with
    | none =>
      cases hL : resolveLibraryDirsPlain fs resource_dirs library_dirs <;>
        simp [hI, hP, hL, Except.toOption]
    | some programPath =>
      cases hC : canon programPath with
      | none =>
        cases hL : resolveLibraryDirsPlain fs resource_dirs library_dirs <;>
          simp [hI, hP, hC, hL, Except.toOption]
      | some programCanon =>
        simp only [hP, hC]
        cases hNI : hasNulByte interpreterPath.render with
        | true => simp [hI, hP, hC, hNI] at hnul
        | false =>
          simp only [hNI, Bool.false_eq_true, if_false]
          cases hLu : resolveLibraryDirsUserland fs resource_dirs library_dirs with
          | error e =>
            cases hLp : resolveLibraryDirsPlain fs resource_dirs library_dirs with
            | error e2 => simp [hLu, hLp, Except.toOption]
            | ok ps => rw [hLp, hLu] at hlib; simp [Except.toOption] at hlib
          | ok resolved₂ =>
            cases hLp : resolveLibraryDirsPlain fs resource_dirs library_dirs with
            | error e2 => rw [hLp, hLu] at hlib; simp [Except.toOption] at hlib
            | ok ps =>
              have hps : ps = resolved₂ := by
                rw [hLp, hLu] at hlib
                simpa [Except.toOption] using hlib
              subst hps
              cases hE : runtime_library_dirs.map
                  (fun d => program_parent_path.join (parsePath d)) ++ ps with
              | nil =>
                cases hNP : hasNulByte programCanon.render with
                | true => simp [hI, hP, hC, hNI, hLu, hE, hNP] at hnul
                | false => simp [hLp, hLu, hE, hNP, Except.toOption]
              | cons x xs =>
                cases hNJ : hasNulByte (joinLibraryPath (x :: xs) ld_library_path) with
                | true => simp [hI, hP, hC, hNI, hLu, hE, hNJ] at hnul
                | false =>
                  cases hNP : hasNulByte programCanon.render with
                  | true => simp [hI, hP, hC, hNI, hLu, hE, hNJ, hNP] at hnul
                  | false => simp [hLp, hLu, hE, hNJ, hNP, Except.toOption]

/-- Witness for C9 at a concrete input where everything resolves: both stubs
build the same argv vector. -/
theorem userland_matches_plain_c9_witness :
    (plain_ld_run ⟨fun _ => true, fun _ => true, fun _ => true, fun _ => true⟩
        [⟨true, ["store"]⟩] ⟨true, ["app"]⟩ some (some "/env/libs") ["a0", "a1"]
        "p" "i" ["l"] ["r"]).toOption =
      (userland_ld_run ⟨fun _ => true, fun _ => true, fun _ => true, fun _ => true⟩
        [⟨true, ["store"]⟩] ⟨true, ["app"]⟩ some (some "/env/libs") ["a0", "a1"]
        "p" "i" ["l"] ["r"]).toOption :=
  userland_matches_plain_c9 ⟨fun _ => true, fun _ => true, fun _ => true, fun _ => true⟩
    [⟨true, ["store"]⟩] ⟨true, ["app"]⟩ some (some "/env/libs") ["a0", "a1"]
    "p" "i" ["l"] ["r"] (by decide)

/-- Witness for the amended C5 at a concrete input with no inherited value:
the fallback value is placed. -/
theorem metadata_fallback_c5_amended_witness :
    (metadataRunEnvs fs0 prog0 [] parent0 depEnv0
        ⟨⟨[]⟩, [], [("X", EnvValue.fallback ⟨[.literal "v"]⟩)], [], false⟩).map
        (fun f => f "X") =
      .ok (match parent0 "X" with
        | none => (evalT fs0 prog0 [] ⟨[.literal "v"]⟩).toOption
        | some s => some s) :=
  metadata_fallback_c5_amended fs0 prog0 [] parent0 depEnv0 ⟨[]⟩ [] false
    [("X", EnvValue.fallback ⟨[.literal "v"]⟩)] "X" ⟨[.literal "v"]⟩
    (by decide) (by decide) (by decide)

end Brioche
